import Mathlib

/-!
# Verification of the Mali optimization-barrier pass

A shallow embedding of `source/opt/mali_optimization_barrier_pass.cpp`
(the variant with vector support and scalar/vector rewrite counters).

The pass scans every instruction of every non-declaration function; for
each `OpShiftLeftLogical` whose shift-amount operand (in-operand 1)
resolves to a declared constant of integer or integer-vector type it
synthesizes a zero constant of the shift's result type, renames the
shift's result to a freshly allocated id, and inserts an
`OpBitFieldInsert` identity guard right after the shift under the
original result id.

Types, constants and identifiers are SPIRV-Tools infrastructure that is
not part of the sources under verification; those operations are
modelled from the specification (each such definition is marked
`Modelled from the spec:` in its doc comment).  Identifiers are
natural numbers with `0` reserved as the invalid identifier.
-/

namespace MaliBarrier

/-- SPIR-V types relevant to the pass, as a closed sum: plain integers
(with signedness and bit width), vectors over an element type, and an
opaque tag for every other type. -/
inductive Ty where
  | integer (signed : Bool) (width : Nat)
  | vector (elem : Ty) (count : Nat)
  | otherTy (tag : Nat)
deriving DecidableEq, Repr

/-- `Type::AsInteger() != nullptr` for the modelled closed sum. -/
def Ty.isInteger : Ty → Bool
  | .integer _ _ => true
  | _ => false

/-- The value payload of a declared constant: a scalar integer literal,
a composite built from component constant ids, or an opaque tag. -/
inductive ConstVal where
  | intVal (v : Int)
  | composite (componentIds : List Nat)
  | otherVal (tag : Nat)
deriving DecidableEq, Repr

/-- A declared constant: its type together with its value. -/
structure SpvConst where
  ty : Ty
  val : ConstVal
deriving DecidableEq, Repr

/-- Module-scoped registries shared by the pass: the type table
(id to type), the constant table (id to constant), the monotonic
identifier allocator (`nextId`) and the bound above which allocation
fails (`idBound`). -/
structure St where
  types : List (Nat × Ty)
  consts : List (Nat × SpvConst)
  nextId : Nat
  idBound : Nat
deriving DecidableEq, Repr

/-- Modelled from the spec: `TypeManager::GetType` — resolve a type id. -/
def lookupType (s : St) (id : Nat) : Option Ty :=
  (s.types.find? (fun p => p.1 == id)).map (fun p => p.2)

/-- Modelled from the spec: `ConstantManager::FindDeclaredConstant` —
resolve an operand id to its declared constant, if any. -/
def findDeclaredConstant (s : St) (id : Nat) : Option SpvConst :=
  (s.consts.find? (fun p => p.1 == id)).map (fun p => p.2)

/-- Find the id of an already-registered constant equal to `c`
(constants are deduplicated by (type, value)). -/
def findConstId (s : St) (c : SpvConst) : Option Nat :=
  (s.consts.find? (fun p => p.2 == c)).map (fun p => p.1)

/-- Find the id of an already-registered type equal to `t`
(types are deduplicated). -/
def findTypeId (s : St) (t : Ty) : Option Nat :=
  (s.types.find? (fun p => p.2 == t)).map (fun p => p.1)

/-- Modelled from the spec: `IRContext::TakeNextId` — monotonic
identifier allocation, returning the invalid identifier `0` when the
identifier space is exhausted. -/
def takeNextId (s : St) : Nat × St :=
  if s.nextId < s.idBound then (s.nextId, { s with nextId := s.nextId + 1 })
  else (0, s)

/-- The canonical scalar integer zero constant for a signedness.  The
constant manager's canonical integer type (`GetSIntType`/`GetUIntType`)
is the 32-bit integer of that signedness. -/
def intZeroConst (signed : Bool) : SpvConst :=
  ⟨.integer signed 32, .intVal 0⟩

/-- Modelled from the spec: `ConstantManager::GetSIntConstId(0)` /
`GetUIntConstId(0)` (not under src/) — return the deduplicated zero
constant for the requested signedness, registering it at a fresh id if
absent; the canonical scalar integer type is 32-bit.  Returns the
invalid identifier on exhaustion. -/
def getIntZeroConstId (s : St) (signed : Bool) : Nat × St :=
  match findConstId s (intZeroConst signed) with
  | some id => (id, s)
  | none =>
    match takeNextId s with
    | (0, s1) => (0, s1)
    | (i + 1, s1) =>
      (i + 1, { s1 with consts := s1.consts ++ [(i + 1, intZeroConst signed)] })

/-- Modelled from the spec: `TypeManager::GetTypeInstruction` (not
under src/) — the deduplicated id of a type, registering it at a fresh
id if absent; the invalid identifier on exhaustion. -/
def getTypeInstruction (s : St) (t : Ty) : Nat × St :=
  match findTypeId s t with
  | some id => (id, s)
  | none =>
    match takeNextId s with
    | (0, s1) => (0, s1)
    | (i + 1, s1) => (i + 1, { s1 with types := s1.types ++ [(i + 1, t)] })

/-- Modelled from the spec: `ConstantManager::GetConstant` on a
composite followed by `GetDefiningInstruction(...)->result_id()` (not
under src/) — the deduplicated id of the aggregate constant with the
given component id list, registering it at a fresh id if absent; the
invalid identifier when the type argument is absent or on
exhaustion. -/
def getCompositeConstId (s : St) (t : Option Ty) (ids : List Nat) : Nat × St :=
  match t with
  | none => (0, s)
  | some ty =>
    match findConstId s ⟨ty, .composite ids⟩ with
    | some id => (id, s)
    | none =>
      match takeNextId s with
      | (0, s1) => (0, s1)
      | (i + 1, s1) =>
        (i + 1, { s1 with consts := s1.consts ++ [(i + 1, ⟨ty, .composite ids⟩)] })

/-- `MaliOptimizationBarrierPass::GetOrCreateConstantZero`: resolve the
type id; if it is a plain integer, return the deduplicated scalar zero
constant id for its signedness, else the invalid identifier. -/
def GetOrCreateConstantZero (s : St) (typeId : Nat) : Nat × St :=
  match lookupType s typeId with
  | none => (0, s)
  | some t =>
    match t with
    | .integer signed _ => getIntZeroConstId s signed
    | _ => (0, s)

/-- The component-synthesis loop of `GetOrCreateConstantZeroVector`:
`count` calls of `GetSIntConstId(0)` / `GetUIntConstId(0)`, collecting
the returned ids in order. -/
def synthComponents (signed : Bool) : Nat → St → List Nat × St
  | 0, s => ([], s)
  | n + 1, s =>
    let r := getIntZeroConstId s signed
    let rest := synthComponents signed n r.2
    (r.1 :: rest.1, rest.2)

/-- `MaliOptimizationBarrierPass::GetOrCreateConstantZeroVector`:
resolve the type id as a vector of integers, synthesize one scalar zero
id per component, resolve/create the vector type's id, then
resolve/create the aggregate zero constant from that component list. -/
def GetOrCreateConstantZeroVector (s : St) (typeId : Nat) : Nat × St :=
  match lookupType s typeId with
  | none => (0, s)
  | some t =>
    match t with
    | .vector elem count =>
      match elem with
      | .integer signed ew =>
        match synthComponents signed count s with
        | (comps, s1) =>
          match getTypeInstruction s1 (.vector (.integer signed ew) count) with
          | (0, s2) => (0, s2)
          | (vt + 1, s2) =>
            getCompositeConstId s2 (lookupType s2 (vt + 1)) comps
      | _ => (0, s)
    | _ => (0, s)

/-- The opcodes the pass distinguishes; every other opcode is opaque. -/
inductive Op where
  | shiftLeftLogical
  | bitFieldInsert
  | otherOp (code : Nat)
deriving DecidableEq, Repr

/-- An instruction: opcode, result type id (`0` when absent), result
id (`0` when absent), and the ordered id in-operands. -/
structure Instruction where
  opcode : Op
  typeId : Nat
  resultId : Nat
  inOperands : List Nat
deriving DecidableEq, Repr

/-- `Instruction::GetSingleWordInOperand`. -/
def Instruction.getSingleWordInOperand (i : Instruction) (k : Nat) : Nat :=
  i.inOperands.getD k 0

/-- The running state of one `Process` invocation: the module
registries plus the `scalar_modifications` / `vector_modifications`
counters and the `modified` flag. -/
structure PState where
  st : St
  scalarMods : Nat
  vectorMods : Nat
  modified : Bool
deriving DecidableEq, Repr

/-- The candidate-matcher test (`shift_constant->type()->AsInteger()`). -/
def constIsScalarInt (c : SpvConst) : Bool :=
  c.ty.isInteger

/-- The candidate-matcher test (`AsVector()` with integer element). -/
def constIsIntVector (c : SpvConst) : Bool :=
  match c.ty with
  | .vector elem _ => elem.isInteger
  | _ => false

/-- Whether an instruction is matched by the candidate matcher: an
`OpShiftLeftLogical` whose in-operand 1 resolves to a declared constant
of integer or integer-vector type. -/
def matchesShift (s : St) (inst : Instruction) : Bool :=
  inst.opcode == Op.shiftLeftLogical &&
    match findDeclaredConstant s (inst.getSingleWordInOperand 1) with
    | some c => constIsScalarInt c || constIsIntVector c
    | none => false

/-- One iteration of the instruction loop of `Process` on `inst`:
returns the instructions standing where `inst` stood afterwards, the
new pass state, and whether the pass aborted with `Status::Failure`.
A skipped instruction stays alone and unchanged; a rewritten candidate
becomes the renamed shift followed by the inserted guard (the C++
iterator then visits the guard, whose opcode can never match, so the
scan effectively resumes at the next original instruction). -/
def processInst (p : PState) (inst : Instruction) :
    List Instruction × PState × Bool :=
  if inst.opcode ≠ Op.shiftLeftLogical then ([inst], p, false)
  else
    match findDeclaredConstant p.st (inst.getSingleWordInOperand 1) with
    | none => ([inst], p, false)
    | some shiftConstant =>
      let isScalar := constIsScalarInt shiftConstant
      let isVector := constIsIntVector shiftConstant
      if !isScalar && !isVector then ([inst], p, false)
      else
        let originalResultTypeId := inst.typeId
        let originalResultId := inst.resultId
        let c0 :=
          if isScalar then GetOrCreateConstantZero p.st originalResultTypeId
          else GetOrCreateConstantZeroVector p.st originalResultTypeId
        if c0.1 = 0 then ([inst], { p with st := c0.2 }, true)
        else
          let tmp := takeNextId c0.2
          if tmp.1 = 0 then ([inst], { p with st := tmp.2 }, true)
          else
            let shiftInst := { inst with resultId := tmp.1 }
            let guardInst : Instruction :=
              ⟨Op.bitFieldInsert, originalResultTypeId, originalResultId,
                [tmp.1, c0.1, c0.1, c0.1]⟩
            ([shiftInst, guardInst],
              { st := tmp.2,
                scalarMods := if isScalar then p.scalarMods + 1 else p.scalarMods,
                vectorMods := if isScalar then p.vectorMods else p.vectorMods + 1,
                modified := true }, false)

/-- The instruction loop of `Process` over one basic block.  On
failure the remaining instructions are left in place unscanned. -/
def processBlock : PState → List Instruction → List Instruction × PState × Bool
  | p, [] => ([], p, false)
  | p, inst :: rest =>
    let r := processInst p inst
    if r.2.2 then (r.1 ++ rest, r.2.1, true)
    else
      let rr := processBlock r.2.1 rest
      (r.1 ++ rr.1, rr.2.1, rr.2.2)

/-- The block loop of `Process` over one function's blocks. -/
def processBlocks : PState → List (List Instruction) → List (List Instruction) × PState × Bool
  | p, [] => ([], p, false)
  | p, b :: rest =>
    let r := processBlock p b
    if r.2.2 then (r.1 :: rest, r.2.1, true)
    else
      let rr := processBlocks r.2.1 rest
      (r.1 :: rr.1, rr.2.1, rr.2.2)

/-- A function: whether it is a declaration (body-less), and its basic
blocks, each an ordered instruction list. -/
structure SpvFunction where
  isDeclaration : Bool
  blocks : List (List Instruction)
deriving DecidableEq, Repr

/-- One function of the function loop of `Process`: declarations are
skipped outright. -/
def processFunction (p : PState) (fn : SpvFunction) : SpvFunction × PState × Bool :=
  if fn.isDeclaration then (fn, p, false)
  else
    let r := processBlocks p fn.blocks
    ({ fn with blocks := r.1 }, r.2.1, r.2.2)

/-- The function loop of `Process` over the module's functions. -/
def processFunctions : PState → List SpvFunction → List SpvFunction × PState × Bool
  | p, [] => ([], p, false)
  | p, fn :: rest =>
    let r := processFunction p fn
    if r.2.2 then (r.1 :: rest, r.2.1, true)
    else
      let rr := processFunctions r.2.1 rest
      (r.1 :: rr.1, rr.2.1, rr.2.2)

/-- A module: its functions plus the shared registries/allocator. -/
structure SpvModule where
  functions : List SpvFunction
  st : St
deriving DecidableEq, Repr

/-- `Pass::Status` as returned by `Process`. -/
inductive Status where
  | successWithoutChange
  | successWithChange
  | failure
deriving DecidableEq, Repr

/-- The observable result of one `Process` run: the module as it stands
on return, the status, and the two counters the summary log reports. -/
structure ProcessResult where
  module : SpvModule
  status : Status
  scalarModifications : Nat
  vectorModifications : Nat
deriving DecidableEq, Repr

/-- `MaliOptimizationBarrierPass::Process`. -/
def Process (m : SpvModule) : ProcessResult :=
  let p0 : PState := ⟨m.st, 0, 0, false⟩
  let r := processFunctions p0 m.functions
  { module := ⟨r.1, r.2.1.st⟩,
    status :=
      if r.2.2 then Status.failure
      else if r.2.1.modified then Status.successWithChange
      else Status.successWithoutChange,
    scalarModifications := r.2.1.scalarMods,
    vectorModifications := r.2.1.vectorMods }

/-!
## Value semantics

Concrete evaluation of straight-line instruction sequences, used for the
value-preservation property.  `OpShiftLeftLogical` and
`OpBitFieldInsert` operate on the bit pattern of their operands, so a
`w`-bit value of either signedness is represented by its bit pattern, a
natural number reduced modulo `2 ^ w`; vectors act componentwise
(`OpBitFieldInsert`'s offset/count are taken componentwise too, which
for the pass's zero-vector arguments means zero in every lane). -/

/-- A concrete value: a scalar bit pattern or a vector of them. -/
inductive Value where
  | scalar (n : Nat)
  | vec (ns : List Nat)
deriving DecidableEq, Repr

/-- One-component `OpShiftLeftLogical` at bit width `w`. -/
def shl1 (w base amount : Nat) : Nat :=
  base * 2 ^ amount % 2 ^ w

/-- One-component `OpBitFieldInsert` at bit width `w`: the `count` bits
of the result starting at `offset` come from the low `count` bits of
`insert`; all other bits come from `base`. -/
def bfi1 (w base insert offset count : Nat) : Nat :=
  (base % 2 ^ offset
    + insert % 2 ^ count * 2 ^ offset
    + base / 2 ^ (offset + count) * 2 ^ (offset + count)) % 2 ^ w

/-- `OpShiftLeftLogical` on values at bit width `w`. -/
def evalShl (w : Nat) : Value → Value → Option Value
  | .scalar b, .scalar a => some (.scalar (shl1 w b a))
  | .vec bs, .vec as => some (.vec (List.zipWith (shl1 w) bs as))
  | _, _ => none

/-- `OpBitFieldInsert` on values at bit width `w`, componentwise. -/
def evalBfi (w : Nat) : Value → Value → Value → Value → Option Value
  | .scalar b, .scalar i, .scalar o, .scalar c => some (.scalar (bfi1 w b i o c))
  | .vec bs, .vec is, .vec os, .vec cs =>
    some (.vec (List.zipWith (fun bi oc => bfi1 w bi.1 bi.2 oc.1 oc.2)
      (List.zipWith Prod.mk bs is) (List.zipWith Prod.mk os cs)))
  | _, _, _, _ => none

/-- The zero value of the same shape (scalar / vector width) as `v`. -/
def zeroValueLike : Value → Value
  | .scalar _ => .scalar 0
  | .vec ns => .vec (List.replicate ns.length 0)

/-- Point update of an evaluation environment. -/
def updateEnv (env : Nat → Option Value) (id : Nat) (v : Value) :
    Nat → Option Value :=
  fun k => if k = id then some v else env k

/-- Evaluate one instruction in an environment mapping ids to values,
binding its result id; `none` when an operand is undefined or the
opcode has no modelled semantics. -/
def evalInst (w : Nat) (env : Nat → Option Value) (inst : Instruction) :
    Option (Nat → Option Value) :=
  match inst.opcode, inst.inOperands with
  | .shiftLeftLogical, [b, a] => do
    let bv ← env b
    let av ← env a
    let r ← evalShl w bv av
    some (updateEnv env inst.resultId r)
  | .bitFieldInsert, [b, i, o, c] => do
    let bv ← env b
    let iv ← env i
    let ov ← env o
    let cv ← env c
    let r ← evalBfi w bv iv ov cv
    some (updateEnv env inst.resultId r)
  | _, _ => none

/-- Evaluate a straight-line instruction sequence. -/
def evalSeq (w : Nat) (env : Nat → Option Value) :
    List Instruction → Option (Nat → Option Value)
  | [] => some env
  | inst :: rest => do
    let env' ← evalInst w env inst
    evalSeq w env' rest

/-!
## Structural lemmas about one scan step
-/

theorem processInst_not_shift {p : PState} {inst : Instruction}
    (hop : inst.opcode ≠ Op.shiftLeftLogical) :
    processInst p inst = ([inst], p, false) := by
  simp [processInst, hop]

theorem processInst_no_const {p : PState} {inst : Instruction}
    (hop : inst.opcode = Op.shiftLeftLogical)
    (hc : findDeclaredConstant p.st (inst.getSingleWordInOperand 1) = none) :
    processInst p inst = ([inst], p, false) := by
  simp [processInst, hop, hc]

theorem processInst_bad_class {p : PState} {inst : Instruction} {c : SpvConst}
    (hop : inst.opcode = Op.shiftLeftLogical)
    (hc : findDeclaredConstant p.st (inst.getSingleWordInOperand 1) = some c)
    (hs : constIsScalarInt c = false) (hv : constIsIntVector c = false) :
    processInst p inst = ([inst], p, false) := by
  simp [processInst, hop, hc, hs, hv]

/-- An instruction the candidate matcher rejects is passed through
untouched, with the pass state (registries, counters, flags) exactly
as it was. -/
theorem processInst_skip {p : PState} {inst : Instruction}
    (h : matchesShift p.st inst = false) :
    processInst p inst = ([inst], p, false) := by
  by_cases hop : inst.opcode = Op.shiftLeftLogical
  · cases hc : findDeclaredConstant p.st (inst.getSingleWordInOperand 1) with
    | none => exact processInst_no_const hop hc
    | some c =>
      have hm : (constIsScalarInt c || constIsIntVector c) = false := by
        simpa [matchesShift, hop, hc] using h
      simp only [Bool.or_eq_false_iff] at hm
      exact processInst_bad_class hop hc hm.1 hm.2
  · exact processInst_not_shift hop

/-- A matched candidate whose zero-constant synthesis and fresh-id
allocation both succeed is rewritten into the renamed shift followed by
the `OpBitFieldInsert` guard, the matching class counter stepping by
one. -/
theorem processInst_rewrite {p : PState} {inst : Instruction} {c : SpvConst}
    {z t : Nat} {st1 st2 : St}
    (hop : inst.opcode = Op.shiftLeftLogical)
    (hc : findDeclaredConstant p.st (inst.getSingleWordInOperand 1) = some c)
    (hclass : (constIsScalarInt c || constIsIntVector c) = true)
    (hsynth : (if constIsScalarInt c then GetOrCreateConstantZero p.st inst.typeId
      else GetOrCreateConstantZeroVector p.st inst.typeId) = (z, st1))
    (hz : z ≠ 0)
    (halloc : takeNextId st1 = (t, st2)) (ht : t ≠ 0) :
    processInst p inst =
      ([{ inst with resultId := t },
        ⟨Op.bitFieldInsert, inst.typeId, inst.resultId, [t, z, z, z]⟩],
        ⟨st2,
          if constIsScalarInt c then p.scalarMods + 1 else p.scalarMods,
          if constIsScalarInt c then p.vectorMods else p.vectorMods + 1,
          true⟩, false) := by
  have hcl : (!constIsScalarInt c && !constIsIntVector c) = false := by
    cases hs : constIsScalarInt c <;> cases hv : constIsIntVector c <;>
      simp_all
  simp [processInst, hop, hc, hcl, hsynth, hz, halloc, ht]

/-- A matched candidate whose zero-constant synthesis returns the
invalid identifier aborts the scan, the candidate left in place. -/
theorem processInst_synth_fail {p : PState} {inst : Instruction} {c : SpvConst}
    {st1 : St}
    (hop : inst.opcode = Op.shiftLeftLogical)
    (hc : findDeclaredConstant p.st (inst.getSingleWordInOperand 1) = some c)
    (hclass : (constIsScalarInt c || constIsIntVector c) = true)
    (hsynth : (if constIsScalarInt c then GetOrCreateConstantZero p.st inst.typeId
      else GetOrCreateConstantZeroVector p.st inst.typeId) = (0, st1)) :
    processInst p inst = ([inst], { p with st := st1 }, true) := by
  have hcl : (!constIsScalarInt c && !constIsIntVector c) = false := by
    cases hs : constIsScalarInt c <;> cases hv : constIsIntVector c <;>
      simp_all
  simp [processInst, hop, hc, hcl, hsynth]

/-- A matched candidate whose zero-constant synthesis succeeds but whose
fresh-id allocation returns the invalid identifier aborts the scan, the
candidate left in place (its result id untouched, no guard inserted),
while the synthesized constant stays in the registries. -/
theorem processInst_alloc_fail {p : PState} {inst : Instruction} {c : SpvConst}
    {z : Nat} {st1 st2 : St}
    (hop : inst.opcode = Op.shiftLeftLogical)
    (hc : findDeclaredConstant p.st (inst.getSingleWordInOperand 1) = some c)
    (hclass : (constIsScalarInt c || constIsIntVector c) = true)
    (hsynth : (if constIsScalarInt c then GetOrCreateConstantZero p.st inst.typeId
      else GetOrCreateConstantZeroVector p.st inst.typeId) = (z, st1))
    (hz : z ≠ 0)
    (halloc : takeNextId st1 = (0, st2)) :
    processInst p inst = ([inst], { p with st := st2 }, true) := by
  have hcl : (!constIsScalarInt c && !constIsIntVector c) = false := by
    cases hs : constIsScalarInt c <;> cases hv : constIsIntVector c <;>
      simp_all
  simp [processInst, hop, hc, hcl, hsynth, hz, halloc]

/-!
## Composition lemmas for the scan loops
-/

/-- Scanning a concatenation: the second part is scanned only if the
first part did not abort, in which case it is left in place verbatim. -/
theorem processBlock_append (p : PState) (l₁ l₂ : List Instruction) :
    processBlock p (l₁ ++ l₂) =
      (let r := processBlock p l₁
       if r.2.2 then (r.1 ++ l₂, r.2.1, true)
       else
         let rr := processBlock r.2.1 l₂
         (r.1 ++ rr.1, rr.2.1, rr.2.2)) := by
  induction l₁ generalizing p with
  | nil => simp [processBlock]
  | cons inst rest ih =>
    simp only [List.cons_append, processBlock]
    by_cases hf : (processInst p inst).2.2
    · simp [hf]
    · simp only [hf, if_false, Bool.false_eq_true]
      have hx : rest.append l₂ = rest ++ l₂ := rfl
      rw [hx, ih]
      by_cases hf2 : (processBlock (processInst p inst).2.1 rest).2.2 <;>
        simp [hf2, List.append_assoc]

/-!
## Value preservation of the guard
-/

theorem shl1_lt (w b a : Nat) : shl1 w b a < 2 ^ w :=
  Nat.mod_lt _ (Nat.pos_pow_of_pos w (by omega))

/-- With offset and count both zero, bitfield insertion selects no bits
to replace: it reduces to the base value modulo the bit width, whatever
the insertion value. -/
theorem bfi1_zero (w x i : Nat) : bfi1 w x i 0 0 = x % 2 ^ w := by
  simp [bfi1, Nat.mod_one]

theorem zipWith_shl1_lt (w : Nat) :
    ∀ (bs as : List Nat), ∀ x ∈ List.zipWith (shl1 w) bs as, x < 2 ^ w := by
  intro bs
  induction bs with
  | nil => intro as x hx; simp at hx
  | cons b bs ih =>
    intro as x hx
    cases as with
    | nil => simp at hx
    | cons a as =>
      simp only [List.zipWith_cons_cons, List.mem_cons] at hx
      rcases hx with h | h
      · exact h ▸ shl1_lt w b a
      · exact ih as x h

theorem zip_bfi_zero (w : Nat) :
    ∀ (l : List Nat), (∀ x ∈ l, x < 2 ^ w) →
      List.zipWith (fun bi oc => bfi1 w bi.1 bi.2 oc.1 oc.2)
        (List.zipWith Prod.mk l (List.replicate l.length 0))
        (List.zipWith Prod.mk (List.replicate l.length 0)
          (List.replicate l.length 0)) = l := by
  intro l
  induction l with
  | nil => intro _; simp
  | cons x l ih =>
    intro h
    simp only [List.length_cons, List.replicate_succ, List.zipWith_cons_cons,
      bfi1_zero]
    refine congrArg₂ _ ?_ (ih fun y hy => h y (List.mem_cons_of_mem _ hy))
    exact Nat.mod_eq_of_lt (h x (List.mem_cons_self x l))

/-- Bitfield-inserting the zero value at zero offset with zero count
into the result of a shift gives back the shift's result exactly, in
every lane. -/
theorem evalBfi_shl_id {w : Nat} {bv av rv : Value}
    (hr : evalShl w bv av = some rv) :
    evalBfi w rv (zeroValueLike rv) (zeroValueLike rv) (zeroValueLike rv)
      = some rv := by
  cases bv with
  | scalar b =>
    cases av with
    | scalar a =>
      simp only [evalShl, Option.some.injEq] at hr
      subst hr
      simp [evalBfi, zeroValueLike, bfi1_zero,
        Nat.mod_eq_of_lt (shl1_lt w b a)]
    | vec _ => simp [evalShl] at hr
  | vec bs =>
    cases av with
    | scalar _ => simp [evalShl] at hr
    | vec as =>
      simp only [evalShl, Option.some.injEq] at hr
      subst hr
      simp only [evalBfi, zeroValueLike, Option.some.injEq, Value.vec.injEq]
      exact zip_bfi_zero w _ (zipWith_shl1_lt w bs as)

/-- Inversion of a rewriting scan step: when `processInst` turns a
candidate into two instructions without aborting, those are the shift
renamed to a nonzero fresh id and the `OpBitFieldInsert` guard under
the original result id and type, with the fresh id as base and the
synthesized constant as insertion value, offset, and count. -/
theorem processInst_pair_inv {p : PState} {inst s g : Instruction} {p' : PState}
    (h : processInst p inst = ([s, g], p', false)) :
    inst.opcode = Op.shiftLeftLogical ∧
      ∃ t z, t ≠ 0 ∧ z ≠ 0 ∧ s = { inst with resultId := t } ∧
        g = ⟨Op.bitFieldInsert, inst.typeId, inst.resultId, [t, z, z, z]⟩ := by
  by_cases hop : inst.opcode = Op.shiftLeftLogical
  · refine ⟨hop, ?_⟩
    cases hc : findDeclaredConstant p.st (inst.getSingleWordInOperand 1) with
    | none => rw [processInst_no_const hop hc] at h; simp at h
    | some c =>
      by_cases hclass : (constIsScalarInt c || constIsIntVector c) = true
      · rcases hsynth : (if constIsScalarInt c then
            GetOrCreateConstantZero p.st inst.typeId
          else GetOrCreateConstantZeroVector p.st inst.typeId) with ⟨z', st1⟩
        by_cases hz : z' = 0
        · subst hz
          rw [processInst_synth_fail hop hc hclass hsynth] at h
          simp at h
        · rcases halloc : takeNextId st1 with ⟨t', st2⟩
          by_cases ht : t' = 0
          · subst ht
            rw [processInst_alloc_fail hop hc hclass hsynth hz halloc] at h
            simp at h
          · rw [processInst_rewrite hop hc hclass hsynth hz halloc ht] at h
            simp only [Prod.mk.injEq, List.cons.injEq, and_true] at h
            obtain ⟨⟨hs, hg⟩, -⟩ := h
            exact ⟨_, _, ht, hz, hs.symm, hg.symm⟩
      · simp only [Bool.or_eq_true, not_or, Bool.not_eq_true] at hclass
        rw [processInst_bad_class hop hc hclass.1 hclass.2] at h
        simp at h
  · rw [processInst_not_shift hop] at h
    simp at h

/-- C1: for every concrete base value, evaluating the rewritten
two-instruction sequence (the shift producing the fresh temp id,
followed by the bitfield-insert guard whose base is the temp and whose
insertion value, offset, and count are all the synthesized zero
constant) yields under the original result id the same value as
evaluating the original shift alone — for every bit width `w`, for
scalars and vectors of every width alike; both opcodes act on bit
patterns, so both signednesses are covered by the same bit-level
semantics. -/
theorem shiftGuard_value_preservation
    {w : Nat} {p p' : PState} {inst s g : Instruction}
    {env : Nat → Option Value} {bId aId : Nat} {bv av rv : Value}
    (hstep : processInst p inst = ([s, g], p', false))
    (hops : inst.inOperands = [bId, aId])
    (hb : env bId = some bv) (ha : env aId = some av)
    (hr : evalShl w bv av = some rv)
    (hz : env (g.getSingleWordInOperand 1) = some (zeroValueLike rv))
    (hzs : g.getSingleWordInOperand 1 ≠ s.resultId) :
    (evalSeq w env [s, g]).bind (fun e => e inst.resultId) =
      (evalSeq w env [inst]).bind (fun e => e inst.resultId) := by
  obtain ⟨hop, t, z, ht0, hz0, hs, hg⟩ := processInst_pair_inv hstep
  subst hs
  subst hg
  rw [show (⟨Op.bitFieldInsert, inst.typeId, inst.resultId, [t, z, z, z]⟩ :
    Instruction).getSingleWordInOperand 1 = z from rfl] at hz hzs
  rw [show ({ inst with resultId := t } : Instruction).resultId = t from rfl]
    at hzs
  simp only [evalSeq, evalInst]
  rw [hop, hops]
  simp [hb, ha, hr, updateEnv, hzs, hz, evalBfi_shl_id hr]

/-- C2: a shift-left whose shift-amount operand resolves to a declared
integer or integer-vector constant is, after the scan reaches it,
replaced by exactly the renamed shift followed by one `OpBitFieldInsert`
guard — the guard carrying the shift's original result id and original
result type, and the shift now carrying the freshly allocated
identifier (the allocator's `nextId` at the moment of allocation). -/
theorem process_targets_constant_shift
    {p p₁ : PState} {pre preOut post : List Instruction} {inst : Instruction}
    {c : SpvConst} {z t : Nat} {st1 st2 : St}
    (hpre : processBlock p pre = (preOut, p₁, false))
    (hop : inst.opcode = Op.shiftLeftLogical)
    (hc : findDeclaredConstant p₁.st (inst.getSingleWordInOperand 1) = some c)
    (hclass : (constIsScalarInt c || constIsIntVector c) = true)
    (hsynth : (if constIsScalarInt c then GetOrCreateConstantZero p₁.st inst.typeId
      else GetOrCreateConstantZeroVector p₁.st inst.typeId) = (z, st1))
    (hz : z ≠ 0)
    (halloc : takeNextId st1 = (t, st2)) (ht : t ≠ 0) :
    ∃ postOut p₂ f,
      processBlock p (pre ++ inst :: post) =
        (preOut ++ { inst with resultId := t } ::
          ⟨Op.bitFieldInsert, inst.typeId, inst.resultId, [t, z, z, z]⟩ ::
          postOut, p₂, f) ∧ t = st1.nextId := by
  have hstep := processInst_rewrite hop hc hclass hsynth hz halloc ht
  have htf : t = st1.nextId := by
    unfold takeNextId at halloc
    split at halloc
    · exact (Prod.mk.injEq _ _ _ _ ▸ halloc).1.symm
    · exact absurd (Prod.mk.injEq _ _ _ _ ▸ halloc).1.symm ht
  rw [processBlock_append]
  simp only [hpre]
  rcases hrest : processBlock
      ⟨st2,
        if constIsScalarInt c then p₁.scalarMods + 1 else p₁.scalarMods,
        if constIsScalarInt c then p₁.vectorMods else p₁.vectorMods + 1,
        true⟩ post with ⟨postOut, p₂, f⟩
  refine ⟨postOut, p₂, f, ?_, htf⟩
  simp [processBlock, hstep, hrest]

/-- C7: a shift-left the candidate matcher rejects (its shift-amount
operand does not resolve to a declared constant of integer or
integer-vector type) is passed through byte-for-byte unchanged, and the
scan state after it — both rewrite counters included — is exactly the
state before it. -/
theorem process_skips_nonconstant_shift
    {p p₁ : PState} {pre preOut post : List Instruction} {inst : Instruction}
    (hpre : processBlock p pre = (preOut, p₁, false))
    (hop : inst.opcode = Op.shiftLeftLogical)
    (hnm : matchesShift p₁.st inst = false) :
    processBlock p (pre ++ [inst]) = (preOut ++ [inst], p₁, false) ∧
      ∃ postOut p₂ f,
        processBlock p (pre ++ inst :: post) =
          (preOut ++ inst :: postOut, p₂, f) := by
  have hstep := processInst_skip hnm
  constructor
  · rw [processBlock_append]
    simp [hpre, processBlock, hstep]
  · rw [processBlock_append]
    simp only [hpre]
    rcases hrest : processBlock p₁ post with ⟨postOut, p₂, f⟩
    refine ⟨postOut, p₂, f, ?_⟩
    simp [processBlock, hstep, hrest]

/-!
## Registry lemmas

Generic facts about id-keyed association lists, under the
well-formedness the C++ registries guarantee by construction: keys are
distinct, and every key is below the allocator's `nextId`.
-/

/-- A value found by content is found back by its key, provided keys
are distinct. -/
theorem lookup_of_value_found {α : Type} [DecidableEq α]
    {l : List (Nat × α)} {v : α} {id : Nat}
    (hnd : (l.map Prod.fst).Nodup)
    (h : (l.find? (fun p => p.2 == v)).map Prod.fst = some id) :
    (l.find? (fun p => p.1 == id)).map Prod.snd = some v := by
  induction l with
  | nil => simp at h
  | cons q l ih =>
    simp only [List.map_cons, List.nodup_cons] at hnd
    by_cases hv : q.2 = v
    · rw [List.find?_cons_of_pos _ (by simp [hv])] at h
      simp only [Option.map_some', Option.some.injEq] at h
      rw [List.find?_cons_of_pos _ (by simp [h])]
      simp [hv]
    · rw [List.find?_cons_of_neg _ (by simp [hv])] at h
      have hidmem : id ∈ l.map Prod.fst := by
        rcases Option.map_eq_some'.mp h with ⟨q', hq', hfst⟩
        exact hfst ▸ List.mem_map_of_mem _ (List.mem_of_find?_eq_some hq')
      rw [List.find?_cons_of_neg _ (by
        simp only [beq_iff_eq]
        intro hq
        exact hnd.1 (hq ▸ hidmem))]
      exact ih hnd.2 h

/-- Looking up a key just appended, when no existing entry carries it. -/
theorem lookup_append_fresh {α : Type} {l : List (Nat × α)} {id : Nat} {v : α}
    (h : ∀ q ∈ l, q.1 ≠ id) :
    (((l ++ [(id, v)]).find? (fun p => p.1 == id)).map Prod.snd) = some v := by
  induction l with
  | nil => simp
  | cons q l ih =>
    rw [List.cons_append,
      List.find?_cons_of_neg _ (by simp [h q (List.mem_cons_self q l)])]
    exact ih fun r hr => h r (List.mem_cons_of_mem q hr)

/-- The well-formedness the C++ registries maintain by construction:
keys are distinct, every key is below the allocator position, and the
allocator never hands out the reserved identifier `0`. -/
structure StWF (s : St) : Prop where
  constsLt : ∀ q ∈ s.consts, q.1 < s.nextId
  constsNodup : (s.consts.map Prod.fst).Nodup
  constsPos : ∀ q ∈ s.consts, 0 < q.1
  typesLt : ∀ q ∈ s.types, q.1 < s.nextId
  typesNodup : (s.types.map Prod.fst).Nodup
  typesPos : ∀ q ∈ s.types, 0 < q.1
  nextPos : 0 < s.nextId

theorem takeNextId_cases {s : St} {i : Nat} {s1 : St}
    (h : takeNextId s = (i, s1)) :
    (¬s.nextId < s.idBound ∧ i = 0 ∧ s1 = s) ∨
      (s.nextId < s.idBound ∧ i = s.nextId ∧
        s1 = { s with nextId := s.nextId + 1 }) := by
  unfold takeNextId at h
  split at h
  next hl =>
    injection h with h1 h2
    exact Or.inr ⟨hl, h1.symm, h2.symm⟩
  next hl =>
    injection h with h1 h2
    exact Or.inl ⟨hl, h1.symm, h2.symm⟩

/-- Appending a fresh constant entry at the allocator position
preserves well-formedness. -/
theorem StWF.appendConst {s : St} (hwf : StWF s) (c : SpvConst) :
    StWF { s with
            consts := s.consts ++ [(s.nextId, c)],
            nextId := s.nextId + 1 } := by
  refine ⟨?_, ?_, ?_, ?_, hwf.typesNodup, hwf.typesPos,
    Nat.lt_succ_of_lt hwf.nextPos⟩
  · intro q hq
    rcases List.mem_append.mp hq with hmem | hmem
    · exact Nat.lt_succ_of_lt (hwf.constsLt q hmem)
    · simp only [List.mem_singleton] at hmem
      simp [hmem]
  · rw [List.map_append]
    refine List.Nodup.append hwf.constsNodup (by simp) ?_
    intro a ha hb
    simp only [List.map_cons, List.map_nil, List.mem_singleton] at hb
    rcases List.mem_map.mp ha with ⟨q, hq, hfst⟩
    exact absurd (hb ▸ hfst ▸ hwf.constsLt q hq) (by simp)
  · intro q hq
    rcases List.mem_append.mp hq with hmem | hmem
    · exact hwf.constsPos q hmem
    · simp only [List.mem_singleton] at hmem
      simp [hmem, hwf.nextPos]
  · exact fun q hq => Nat.lt_succ_of_lt (hwf.typesLt q hq)

/-- Appending a fresh type entry at the allocator position preserves
well-formedness. -/
theorem StWF.appendType {s : St} (hwf : StWF s) (t : Ty) :
    StWF { s with
            types := s.types ++ [(s.nextId, t)],
            nextId := s.nextId + 1 } := by
  refine ⟨?_, hwf.constsNodup, hwf.constsPos, ?_, ?_, ?_,
    Nat.lt_succ_of_lt hwf.nextPos⟩
  · exact fun q hq => Nat.lt_succ_of_lt (hwf.constsLt q hq)
  · intro q hq
    rcases List.mem_append.mp hq with hmem | hmem
    · exact Nat.lt_succ_of_lt (hwf.typesLt q hmem)
    · simp only [List.mem_singleton] at hmem
      simp [hmem]
  · rw [List.map_append]
    refine List.Nodup.append hwf.typesNodup (by simp) ?_
    intro a ha hb
    simp only [List.map_cons, List.map_nil, List.mem_singleton] at hb
    rcases List.mem_map.mp ha with ⟨q, hq, hfst⟩
    exact absurd (hb ▸ hfst ▸ hwf.typesLt q hq) (by simp)
  · intro q hq
    rcases List.mem_append.mp hq with hmem | hmem
    · exact hwf.typesPos q hmem
    · simp only [List.mem_singleton] at hmem
      simp [hmem, hwf.nextPos]

/-- What one scalar-zero request does: well-formedness is preserved,
the type table is untouched, registries only grow, and a nonzero result
id resolves to the canonical zero constant of the signedness. -/
theorem getIntZeroConstId_spec {s : St} {signed : Bool} {cid : Nat} {s' : St}
    (hwf : StWF s) (h : getIntZeroConstId s signed = (cid, s')) :
    StWF s' ∧ s'.types = s.types ∧ s.nextId ≤ s'.nextId ∧
      (∃ ext, s'.consts = s.consts ++ ext) ∧
      (cid ≠ 0 → findDeclaredConstant s' cid = some (intZeroConst signed)) := by
  unfold getIntZeroConstId at h
  cases hfind : findConstId s (intZeroConst signed) with
  | some k =>
    rw [hfind] at h
    injection h with h1 h2
    subst h1
    subst h2
    exact ⟨hwf, rfl, le_refl _, ⟨[], by simp⟩,
      fun _ => lookup_of_value_found hwf.constsNodup hfind⟩
  | none =>
    rw [hfind] at h
    rcases htake : takeNextId s with ⟨i, s1⟩
    rw [htake] at h
    rcases takeNextId_cases htake with ⟨-, rfl, rfl⟩ | ⟨-, hi, hs1⟩
    · injection h with h1 h2
      subst h1
      subst h2
      exact ⟨hwf, rfl, le_refl _, ⟨[], by simp⟩, fun hc => absurd rfl hc⟩
    · rcases i with - | n
      · exact absurd hi.symm (Ne.symm (Nat.ne_of_lt hwf.nextPos))
      · injection h with h1 h2
        subst h1
        subst h2
        subst hs1
        rw [hi]
        refine ⟨?_, rfl, Nat.le_succ _, ⟨_, rfl⟩, fun _ => ?_⟩
        · exact hwf.appendConst (intZeroConst signed)
        · exact lookup_append_fresh fun q hq =>
            Nat.ne_of_lt (hwf.constsLt q hq)

theorem find?_append_none {α : Type} {l₁ l₂ : List α} {p : α → Bool}
    (h : l₁.find? p = none) : (l₁ ++ l₂).find? p = l₂.find? p := by
  induction l₁ with
  | nil => simp
  | cons a l ih =>
    rcases hpa : p a with - | -
    · rw [List.find?_cons_of_neg _ (by simp [hpa])] at h
      rw [List.cons_append, List.find?_cons_of_neg _ (by simp [hpa])]
      exact ih h
    · rw [List.find?_cons_of_pos _ hpa] at h
      exact absurd h (by simp)

theorem find?_append_some {α : Type} {l₁ l₂ : List α} {p : α → Bool} {a : α}
    (h : l₁.find? p = some a) : (l₁ ++ l₂).find? p = some a := by
  induction l₁ with
  | nil => simp at h
  | cons b l ih =>
    rcases hpb : p b with - | -
    · rw [List.find?_cons_of_neg _ (by simp [hpb])] at h
      rw [List.cons_append, List.find?_cons_of_neg _ (by simp [hpb])]
      exact ih h
    · rw [List.find?_cons_of_pos _ hpb] at h
      rw [List.cons_append, List.find?_cons_of_pos _ hpb]
      exact h

/-- A second scalar-zero request right after a first one returns the
same identifier and leaves the state untouched. -/
theorem getIntZeroConstId_idem {s : St} {signed : Bool} {z : Nat} {s₁ : St}
    (hwf : StWF s) (h : getIntZeroConstId s signed = (z, s₁)) :
    getIntZeroConstId s₁ signed = (z, s₁) := by
  unfold getIntZeroConstId at h ⊢
  cases hfind : findConstId s (intZeroConst signed) with
  | some k =>
    rw [hfind] at h
    injection h with h1 h2
    subst h1
    subst h2
    rw [hfind]
  | none =>
    rw [hfind] at h
    rcases htake : takeNextId s with ⟨i, t⟩
    rw [htake] at h
    rcases takeNextId_cases htake with ⟨hge, rfl, rfl⟩ | ⟨hlt, hi, ht⟩
    · injection h with h1 h2
      subst h1
      subst h2
      rw [hfind, htake]
    · rcases i with - | n
      · exact absurd hi.symm (Ne.symm (Nat.ne_of_lt hwf.nextPos))
      · injection h with h1 h2
        subst h1
        subst h2
        subst ht
        have hfind₁ : findConstId
            { s with
              consts := s.consts ++ [(n + 1, intZeroConst signed)],
              nextId := s.nextId + 1 } (intZeroConst signed) = some (n + 1) := by
          have hfindraw : s.consts.find?
              (fun p => p.2 == intZeroConst signed) = none :=
            Option.map_eq_none'.mp hfind
          show ((s.consts ++ [(n + 1, intZeroConst signed)]).find?
            (fun p => p.2 == intZeroConst signed)).map (fun p => p.1) = _
          rw [find?_append_none hfindraw]
          simp
        rw [hfind₁]

/-- Once one scalar-zero request has stabilised the state, every
further request in the component loop returns the same identifier. -/
theorem synthComponents_stable {signed : Bool} {s₁ : St} {z : Nat}
    (hidem : getIntZeroConstId s₁ signed = (z, s₁)) :
    ∀ n, synthComponents signed n s₁ = (List.replicate n z, s₁) := by
  intro n
  induction n with
  | zero => simp [synthComponents]
  | succ n ih =>
    simp only [synthComponents, hidem, ih, List.replicate_succ]

/-- The component loop of the vector path produces the scalar-zero
identifier of the requested signedness, repeated once per lane. -/
theorem synthComponents_succ {signed : Bool} {s s₁ : St} {z : Nat} {n : Nat}
    (hwf : StWF s) (h : getIntZeroConstId s signed = (z, s₁)) :
    synthComponents signed (n + 1) s = (List.replicate (n + 1) z, s₁) := by
  simp only [synthComponents, h,
    synthComponents_stable (getIntZeroConstId_idem hwf h) n,
    List.replicate_succ]

theorem getTypeInstruction_spec {s : St} {t : Ty} {tid : Nat} {s' : St}
    (hwf : StWF s) (h : getTypeInstruction s t = (tid, s')) :
    StWF s' ∧ s'.consts = s.consts ∧ s.nextId ≤ s'.nextId ∧
      (∃ ext, s'.types = s.types ++ ext) ∧
      (tid ≠ 0 → lookupType s' tid = some t) := by
  unfold getTypeInstruction at h
  cases hfind : findTypeId s t with
  | some k =>
    rw [hfind] at h
    injection h with h1 h2
    subst h1
    subst h2
    exact ⟨hwf, rfl, le_refl _, ⟨[], by simp⟩,
      fun _ => lookup_of_value_found hwf.typesNodup hfind⟩
  | none =>
    rw [hfind] at h
    rcases htake : takeNextId s with ⟨i, s1⟩
    rw [htake] at h
    rcases takeNextId_cases htake with ⟨-, rfl, rfl⟩ | ⟨-, hi, hs1⟩
    · injection h with h1 h2
      subst h1
      subst h2
      exact ⟨hwf, rfl, le_refl _, ⟨[], by simp⟩, fun hc => absurd rfl hc⟩
    · rcases i with - | n
      · exact absurd hi.symm (Ne.symm (Nat.ne_of_lt hwf.nextPos))
      · injection h with h1 h2
        subst h1
        subst h2
        subst hs1
        rw [hi]
        refine ⟨?_, rfl, Nat.le_succ _, ⟨_, rfl⟩, fun _ => ?_⟩
        · exact hwf.appendType t
        · exact lookup_append_fresh fun q hq =>
            Nat.ne_of_lt (hwf.typesLt q hq)

theorem getCompositeConstId_spec {s : St} {ty : Ty} {ids : List Nat}
    {cid : Nat} {s' : St}
    (hwf : StWF s) (h : getCompositeConstId s (some ty) ids = (cid, s')) :
    StWF s' ∧ s'.types = s.types ∧ s.nextId ≤ s'.nextId ∧
      (∃ ext, s'.consts = s.consts ++ ext) ∧
      (cid ≠ 0 →
        findDeclaredConstant s' cid = some ⟨ty, .composite ids⟩) := by
  simp only [getCompositeConstId] at h
  cases hfind : findConstId s ⟨ty, .composite ids⟩ with
  | some k =>
    rw [hfind] at h
    injection h with h1 h2
    subst h1
    subst h2
    exact ⟨hwf, rfl, le_refl _, ⟨[], by simp⟩,
      fun _ => lookup_of_value_found hwf.constsNodup hfind⟩
  | none =>
    rw [hfind] at h
    rcases htake : takeNextId s with ⟨i, s1⟩
    rw [htake] at h
    rcases takeNextId_cases htake with ⟨-, rfl, rfl⟩ | ⟨-, hi, hs1⟩
    · injection h with h1 h2
      subst h1
      subst h2
      exact ⟨hwf, rfl, le_refl _, ⟨[], by simp⟩, fun hc => absurd rfl hc⟩
    · rcases i with - | n
      · exact absurd hi.symm (Ne.symm (Nat.ne_of_lt hwf.nextPos))
      · injection h with h1 h2
        subst h1
        subst h2
        subst hs1
        rw [hi]
        refine ⟨?_, rfl, Nat.le_succ _, ⟨_, rfl⟩, fun _ => ?_⟩
        · exact hwf.appendConst ⟨ty, .composite ids⟩
        · exact lookup_append_fresh fun q hq =>
            Nat.ne_of_lt (hwf.constsLt q hq)

/-- A successful keyed/content search survives appending entries. -/
theorem find_map_extend {α β : Type} {l ext : List α} {p : α → Bool}
    {f : α → β} {v : β}
    (h : (l.find? p).map f = some v) :
    ((l ++ ext).find? p).map f = some v := by
  rcases Option.map_eq_some'.mp h with ⟨q, hq, hv⟩
  rw [find?_append_some hq]
  simp [hv]

/-- In a well-formed state, content search never returns the reserved
identifier `0`. -/
theorem findConstId_pos {s : St} {c : SpvConst} {id : Nat}
    (hwf : StWF s) (h : findConstId s c = some id) : id ≠ 0 := by
  rcases Option.map_eq_some'.mp h with ⟨q, hq, hfst⟩
  exact hfst ▸ Nat.ne_of_gt (hwf.constsPos q (List.mem_of_find?_eq_some hq))

/-- Dichotomy of one scalar-zero request: either it hands back a
nonzero identifier that the result state resolves by content, or the
allocator is exhausted, nothing changes and the constant is absent. -/
theorem getIntZeroConstId_cases {s : St} {signed : Bool} {z : Nat} {s₁ : St}
    (hwf : StWF s) (h : getIntZeroConstId s signed = (z, s₁)) :
    (z ≠ 0 ∧ findConstId s₁ (intZeroConst signed) = some z) ∨
      (z = 0 ∧ s₁ = s ∧ findConstId s (intZeroConst signed) = none ∧
        ¬s.nextId < s.idBound) := by
  unfold getIntZeroConstId at h
  cases hfind : findConstId s (intZeroConst signed) with
  | some k =>
    rw [hfind] at h
    injection h with h1 h2
    subst h1
    subst h2
    exact Or.inl ⟨findConstId_pos hwf hfind, hfind⟩
  | none =>
    rw [hfind] at h
    rcases htake : takeNextId s with ⟨i, t⟩
    rw [htake] at h
    rcases takeNextId_cases htake with ⟨hge, rfl, rfl⟩ | ⟨hlt, hi, ht⟩
    · injection h with h1 h2
      subst h1
      subst h2
      exact Or.inr ⟨rfl, rfl, rfl, hge⟩
    · rcases i with - | n
      · exact absurd hi.symm (Ne.symm (Nat.ne_of_lt hwf.nextPos))
      · injection h with h1 h2
        subst h1
        subst h2
        subst ht
        refine Or.inl ⟨by simp, ?_⟩
        have hfindraw : s.consts.find?
            (fun p => p.2 == intZeroConst signed) = none :=
          Option.map_eq_none'.mp hfind
        show ((s.consts ++ [(n + 1, intZeroConst signed)]).find?
          (fun p => p.2 == intZeroConst signed)).map (fun p => p.1) = _
        rw [find?_append_none hfindraw]
        simp

/-- A type-id request either leaves the state untouched or happened
with the allocator still live. -/
theorem getTypeInstruction_unchanged {s : St} {t : Ty} {tid : Nat} {s₁ : St}
    (h : getTypeInstruction s t = (tid, s₁)) :
    s₁ = s ∨ s.nextId < s.idBound := by
  unfold getTypeInstruction at h
  cases hfind : findTypeId s t with
  | some k =>
    rw [hfind] at h
    injection h with h1 h2
    exact Or.inl h2.symm
  | none =>
    rw [hfind] at h
    rcases htake : takeNextId s with ⟨i, t'⟩
    rw [htake] at h
    rcases takeNextId_cases htake with ⟨-, rfl, rfl⟩ | ⟨hlt, -, -⟩
    · injection h with h1 h2
      exact Or.inl h2.symm
    · exact Or.inr hlt

/-- A composite-constant request either leaves the state untouched or
happened with the allocator still live. -/
theorem getCompositeConstId_unchanged {s : St} {t : Option Ty}
    {ids : List Nat} {cid : Nat} {s₁ : St}
    (h : getCompositeConstId s t ids = (cid, s₁)) :
    s₁ = s ∨ s.nextId < s.idBound := by
  cases t with
  | none =>
    simp only [getCompositeConstId] at h
    injection h with h1 h2
    exact Or.inl h2.symm
  | some ty =>
    simp only [getCompositeConstId] at h
    cases hfind : findConstId s ⟨ty, .composite ids⟩ with
    | some k =>
      rw [hfind] at h
      injection h with h1 h2
      exact Or.inl h2.symm
    | none =>
      rw [hfind] at h
      rcases htake : takeNextId s with ⟨i, t'⟩
      rw [htake] at h
      rcases takeNextId_cases htake with ⟨-, rfl, rfl⟩ | ⟨hlt, -, -⟩
      · injection h with h1 h2
        exact Or.inl h2.symm
      · exact Or.inr hlt

/-- A nonzero type id handed out by the type registry is found back by
content in the result state. -/
theorem getTypeInstruction_found {s : St} {t : Ty} {tid : Nat} {s₁ : St}
    (hwf : StWF s) (h : getTypeInstruction s t = (tid, s₁)) (htid : tid ≠ 0) :
    findTypeId s₁ t = some tid := by
  unfold getTypeInstruction at h
  cases hfind : findTypeId s t with
  | some k =>
    rw [hfind] at h
    injection h with h1 h2
    subst h1
    subst h2
    exact hfind
  | none =>
    rw [hfind] at h
    rcases htake : takeNextId s with ⟨i, t'⟩
    rw [htake] at h
    rcases takeNextId_cases htake with ⟨-, rfl, rfl⟩ | ⟨-, hi, ht⟩
    · injection h with h1 h2
      exact absurd h1.symm htid
    · rcases i with - | n
      · exact absurd hi.symm (Ne.symm (Nat.ne_of_lt hwf.nextPos))
      · injection h with h1 h2
        subst h1
        subst h2
        subst ht
        have hfindraw : s.types.find? (fun p => p.2 == t) = none :=
          Option.map_eq_none'.mp hfind
        show ((s.types ++ [(n + 1, t)]).find?
          (fun p => p.2 == t)).map (fun p => p.1) = _
        rw [find?_append_none hfindraw]
        simp

/-- A nonzero composite-constant id handed out by the constant registry
is found back by content in the result state. -/
theorem getCompositeConstId_found {s : St} {ty : Ty} {ids : List Nat}
    {cid : Nat} {s₁ : St}
    (hwf : StWF s) (h : getCompositeConstId s (some ty) ids = (cid, s₁))
    (hcid : cid ≠ 0) :
    findConstId s₁ ⟨ty, .composite ids⟩ = some cid := by
  simp only [getCompositeConstId] at h
  cases hfind : findConstId s ⟨ty, .composite ids⟩ with
  | some k =>
    rw [hfind] at h
    injection h with h1 h2
    subst h1
    subst h2
    exact hfind
  | none =>
    rw [hfind] at h
    rcases htake : takeNextId s with ⟨i, t'⟩
    rw [htake] at h
    rcases takeNextId_cases htake with ⟨-, rfl, rfl⟩ | ⟨-, hi, ht⟩
    · injection h with h1 h2
      exact absurd h1.symm hcid
    · rcases i with - | n
      · exact absurd hi.symm (Ne.symm (Nat.ne_of_lt hwf.nextPos))
      · injection h with h1 h2
        subst h1
        subst h2
        subst ht
        have hfindraw : s.consts.find?
            (fun p => p.2 == (⟨ty, .composite ids⟩ : SpvConst)) = none :=
          Option.map_eq_none'.mp hfind
        show ((s.consts ++ [(n + 1, (⟨ty, .composite ids⟩ : SpvConst))]).find?
          (fun p => p.2 == (⟨ty, .composite ids⟩ : SpvConst))).map
            (fun p => p.1) = _
        rw [find?_append_none hfindraw]
        simp

/-- The component loop preserves well-formedness and only grows the
constant table. -/
theorem synthComponents_wf {signed : Bool} {n : Nat} {s : St}
    {comps : List Nat} {s₁ : St}
    (hwf : StWF s) (h : synthComponents signed n s = (comps, s₁)) :
    StWF s₁ ∧ s₁.types = s.types ∧ s.nextId ≤ s₁.nextId ∧
      ∃ ext, s₁.consts = s.consts ++ ext := by
  cases n with
  | zero =>
    simp only [synthComponents] at h
    injection h with h1 h2
    subst h2
    exact ⟨hwf, rfl, le_refl _, ⟨[], by simp⟩⟩
  | succ n =>
    rcases hz : getIntZeroConstId s signed with ⟨z, sz⟩
    rw [synthComponents_succ hwf hz] at h
    injection h with h1 h2
    subst h2
    obtain ⟨hwf₁, hty, hle, hext, -⟩ := getIntZeroConstId_spec hwf hz
    exact ⟨hwf₁, hty, hle, hext⟩

/-- What the scalar zero-constant synthesizer guarantees on success:
the requested type id resolved to a plain integer, and the returned id
denotes the canonical zero constant of that integer's signedness. -/
theorem GetOrCreateConstantZero_spec {s : St} {tid cid : Nat} {s' : St}
    (hwf : StWF s) (h : GetOrCreateConstantZero s tid = (cid, s'))
    (hcid : cid ≠ 0) :
    ∃ sg w, lookupType s tid = some (.integer sg w) ∧
      getIntZeroConstId s sg = (cid, s') ∧ StWF s' ∧
      findDeclaredConstant s' cid = some (intZeroConst sg) := by
  unfold GetOrCreateConstantZero at h
  cases hl : lookupType s tid with
  | none =>
    rw [hl] at h
    injection h with h1 h2
    exact absurd h1.symm hcid
  | some t =>
    rw [hl] at h
    cases t with
    | integer sg w =>
      obtain ⟨hwf', -, -, -, hres⟩ := getIntZeroConstId_spec hwf h
      exact ⟨sg, w, rfl, h, hwf', hres hcid⟩
    | vector e n =>
      injection h with h1 h2
      exact absurd h1.symm hcid
    | otherTy tag =>
      injection h with h1 h2
      exact absurd h1.symm hcid

/-- What the vector zero-constant synthesizer guarantees on success:
the requested type id resolved to a vector of integers, the component
loop produced the scalar-zero id of the element signedness repeated
once per lane, the vector type id was resolved, and the returned id
denotes the aggregate constant of exactly the requested vector type
built from those components. -/
theorem GetOrCreateConstantZeroVector_spec {s : St} {tid cid : Nat} {s' : St}
    (hwf : StWF s) (h : GetOrCreateConstantZeroVector s tid = (cid, s'))
    (hcid : cid ≠ 0) :
    ∃ sg ew count comps s₁ vt s₂,
      lookupType s tid = some (.vector (.integer sg ew) count) ∧
      synthComponents sg count s = (comps, s₁) ∧
      getTypeInstruction s₁ (.vector (.integer sg ew) count) = (vt + 1, s₂) ∧
      lookupType s₂ (vt + 1) = some (.vector (.integer sg ew) count) ∧
      getCompositeConstId s₂ (some (.vector (.integer sg ew) count)) comps
        = (cid, s') ∧
      StWF s' ∧
      findDeclaredConstant s' cid =
        some ⟨.vector (.integer sg ew) count, .composite comps⟩ ∧
      (count ≠ 0 → comps
        = List.replicate count (getIntZeroConstId s sg).1) := by
  cases hl : lookupType s tid with
  | none =>
    simp only [GetOrCreateConstantZeroVector, hl] at h
    exact absurd (congrArg Prod.fst h).symm hcid
  | some t =>
    cases t with
    | integer sg w =>
      simp only [GetOrCreateConstantZeroVector, hl] at h
      exact absurd (congrArg Prod.fst h).symm hcid
    | otherTy tag =>
      simp only [GetOrCreateConstantZeroVector, hl] at h
      exact absurd (congrArg Prod.fst h).symm hcid
    | vector elem count =>
      cases elem with
      | vector e n =>
        simp only [GetOrCreateConstantZeroVector, hl] at h
        exact absurd (congrArg Prod.fst h).symm hcid
      | otherTy tag =>
        simp only [GetOrCreateConstantZeroVector, hl] at h
        exact absurd (congrArg Prod.fst h).symm hcid
      | integer sg ew =>
        simp only [GetOrCreateConstantZeroVector, hl] at h
        rcases hcomp : synthComponents sg count s with ⟨comps, s₁⟩
        simp only [hcomp] at h
        obtain ⟨hwf₁, -, -, -⟩ := synthComponents_wf hwf hcomp
        rcases hti : getTypeInstruction s₁ (.vector (.integer sg ew) count)
          with ⟨vti, s₂⟩
        cases vti with
        | zero =>
          simp only [hti] at h
          exact absurd (congrArg Prod.fst h).symm hcid
        | succ vt =>
          simp only [hti] at h
          obtain ⟨hwf₂, -, -, -, hlook⟩ := getTypeInstruction_spec hwf₁ hti
          have hlook₂ := hlook (by simp)
          rw [hlook₂] at h
          obtain ⟨hwf', -, -, -, hres⟩ := getCompositeConstId_spec hwf₂ h
          refine ⟨sg, ew, count, comps, s₁, vt, s₂, rfl, hcomp, hti, hlook₂,
            h, hwf', hres hcid, ?_⟩
          intro hcount
          rcases count with - | n
          · exact absurd rfl hcount
          · rcases hz : getIntZeroConstId s sg with ⟨z, sz⟩
            rw [synthComponents_succ hwf hz] at hcomp
            injection hcomp with hc1 hc2
            exact hc1.symm

theorem lookupType_eq_of_types {s s' : St} (h : s'.types = s.types)
    (id : Nat) : lookupType s' id = lookupType s id := by
  unfold lookupType
  rw [h]

theorem findTypeId_eq_of_types {s s' : St} (h : s'.types = s.types)
    (t : Ty) : findTypeId s' t = findTypeId s t := by
  unfold findTypeId
  rw [h]

theorem findConstId_eq_of_consts {s s' : St} (h : s'.consts = s.consts)
    (c : SpvConst) : findConstId s' c = findConstId s c := by
  unfold findConstId
  rw [h]

theorem lookupType_extend {s s' : St} (hext : ∃ ext, s'.types = s.types ++ ext)
    {id : Nat} {t : Ty} (h : lookupType s id = some t) :
    lookupType s' id = some t := by
  rcases hext with ⟨ext, hext⟩
  unfold lookupType at h ⊢
  rw [hext]
  exact find_map_extend h

theorem findConstId_extend {s s' : St}
    (hext : ∃ ext, s'.consts = s.consts ++ ext)
    {c : SpvConst} {id : Nat} (h : findConstId s c = some id) :
    findConstId s' c = some id := by
  rcases hext with ⟨ext, hext⟩
  unfold findConstId at h ⊢
  rw [hext]
  exact find_map_extend h

theorem findDeclaredConstant_extend {s s' : St}
    (hext : ∃ ext, s'.consts = s.consts ++ ext)
    {id : Nat} {c : SpvConst} (h : findDeclaredConstant s id = some c) :
    findDeclaredConstant s' id = some c := by
  rcases hext with ⟨ext, hext⟩
  unfold findDeclaredConstant at h ⊢
  rw [hext]
  exact find_map_extend h

/-!
## The zero-constant synthesizer's typing (C3)
-/

/-- A state whose type id 1 is a 16-bit unsigned integer: the width the
synthesizer cannot reproduce. -/
def exWidthSt : St := ⟨[(1, .integer false 16)], [], 10, 100⟩

/-- C3 counterexample: on a result type id resolving to a 16-bit
unsigned integer, `GetOrCreateConstantZero` returns a nonzero
identifier, yet that identifier denotes the canonical zero constant of
type 32-bit unsigned integer — not a constant "whose type exactly
matches that result type (same bit width)".  The claim as stated is
therefore false on the code. -/
theorem zeroConstant_exact_width_counterexample :
    (GetOrCreateConstantZero exWidthSt 1).1 ≠ 0 ∧
      lookupType exWidthSt 1 = some (Ty.integer false 16) ∧
      findDeclaredConstant (GetOrCreateConstantZero exWidthSt 1).2
          (GetOrCreateConstantZero exWidthSt 1).1 =
        some ⟨Ty.integer false 32, ConstVal.intVal 0⟩ ∧
      Ty.integer false 32 ≠ Ty.integer false 16 := by
  decide

/-- C3 (amended): in a well-formed state, the zero-constant synthesizer
either returns the invalid identifier or an identifier denoting a
zero-valued constant matching the resolved result type's signedness —
at the constant manager's canonical 32-bit scalar width, so the bit
width matches only 32-bit scalar types; for vector result types the
aggregate constant is registered at exactly the requested vector type;
and an already-registered equal scalar constant is reused verbatim,
with no state change. -/
theorem zeroConstantSynthesizer_signedness (s : St) (tid : Nat)
    (hwf : StWF s) :
    (∀ cid s', GetOrCreateConstantZero s tid = (cid, s') → cid ≠ 0 →
      ∃ sg w, lookupType s tid = some (.integer sg w) ∧
        findDeclaredConstant s' cid = some (intZeroConst sg)) ∧
    (∀ cid s', GetOrCreateConstantZeroVector s tid = (cid, s') → cid ≠ 0 →
      ∃ sg ew count comps,
        lookupType s tid = some (.vector (.integer sg ew) count) ∧
        findDeclaredConstant s' cid =
          some ⟨.vector (.integer sg ew) count, .composite comps⟩) ∧
    (∀ sg w cid, lookupType s tid = some (.integer sg w) →
      findConstId s (intZeroConst sg) = some cid →
      GetOrCreateConstantZero s tid = (cid, s)) := by
  refine ⟨?_, ?_, ?_⟩
  · intro cid s' h hcid
    obtain ⟨sg, w, hl, -, -, hres⟩ := GetOrCreateConstantZero_spec hwf h hcid
    exact ⟨sg, w, hl, hres⟩
  · intro cid s' h hcid
    obtain ⟨sg, ew, count, comps, -, -, -, hl, -, -, -, -, -, hres, -⟩ :=
      GetOrCreateConstantZeroVector_spec hwf h hcid
    exact ⟨sg, ew, count, comps, hl, hres⟩
  · intro sg w cid hl hfind
    simp only [GetOrCreateConstantZero, hl, getIntZeroConstId, hfind]

/-- Closed instantiation of the amended C3 theorem on the 16-bit state:
its scalar branch applies and exhibits the signedness-matching
(width-32) zero constant. -/
theorem zeroConstantSynthesizer_signedness_witness :
    ∃ sg w, lookupType exWidthSt 1 = some (Ty.integer sg w) ∧
      findDeclaredConstant (GetOrCreateConstantZero exWidthSt 1).2
        (GetOrCreateConstantZero exWidthSt 1).1 = some (intZeroConst sg) :=
  (zeroConstantSynthesizer_signedness exWidthSt 1
      ⟨by decide, by decide, by decide, by decide, by decide, by decide,
        by decide⟩).1
    (GetOrCreateConstantZero exWidthSt 1).1
    (GetOrCreateConstantZero exWidthSt 1).2 rfl (by decide)

/-- C6: requesting a zero constant for the same type identifier twice
returns the same constant identifier both times — a second scalar
request reproduces the first's result and state exactly, and so does a
second vector request after a successful one; moreover a synthesized
zero-vector constant's component identifiers are all equal to the
deduplicated scalar-zero identifier of the element type's signedness,
repeated once per lane. -/
theorem zeroConstant_dedup (s : St) (tid : Nat) (hwf : StWF s) :
    (∀ cid s₁, GetOrCreateConstantZero s tid = (cid, s₁) →
      GetOrCreateConstantZero s₁ tid = (cid, s₁)) ∧
    (∀ cid s₁, GetOrCreateConstantZeroVector s tid = (cid, s₁) → cid ≠ 0 →
      GetOrCreateConstantZeroVector s₁ tid = (cid, s₁)) ∧
    (∀ cid s₁ sg ew count,
      GetOrCreateConstantZeroVector s tid = (cid, s₁) → cid ≠ 0 →
      lookupType s tid = some (.vector (.integer sg ew) count) → count ≠ 0 →
      findDeclaredConstant s₁ cid = some ⟨.vector (.integer sg ew) count,
        .composite (List.replicate count (getIntZeroConstId s sg).1)⟩) := by
  refine ⟨?_, ?_, ?_⟩
  · intro cid s₁ h
    cases hl : lookupType s tid with
    | none =>
      simp only [GetOrCreateConstantZero, hl] at h
      injection h with h1 h2
      subst h1
      subst h2
      simp only [GetOrCreateConstantZero, hl]
    | some t =>
      cases t with
      | integer sg w =>
        simp only [GetOrCreateConstantZero, hl] at h
        have hty : s₁.types = s.types := (getIntZeroConstId_spec hwf h).2.1
        have hl' : lookupType s₁ tid = some (Ty.integer sg w) := by
          rw [lookupType_eq_of_types hty, hl]
        simp only [GetOrCreateConstantZero, hl']
        exact getIntZeroConstId_idem hwf h
      | vector e n =>
        simp only [GetOrCreateConstantZero, hl] at h
        injection h with h1 h2
        subst h1
        subst h2
        simp only [GetOrCreateConstantZero, hl]
      | otherTy tag =>
        simp only [GetOrCreateConstantZero, hl] at h
        injection h with h1 h2
        subst h1
        subst h2
        simp only [GetOrCreateConstantZero, hl]
  · intro cid s' h hcid
    obtain ⟨sg, ew, count, comps, sA, vt, sB, hl, hcomp, hti, hlookB,
      hcompId, hwf', hres, hrepl⟩ :=
      GetOrCreateConstantZeroVector_spec hwf h hcid
    obtain ⟨hwfA, htyA, hleA, hextA⟩ := synthComponents_wf hwf hcomp
    obtain ⟨hwfB, hcB, hleB, hextB, -⟩ := getTypeInstruction_spec hwfA hti
    obtain ⟨-, htyBkeep, hleC, hextC, -⟩ :=
      getCompositeConstId_spec hwfB hcompId
    have hl' : lookupType s' tid = some (.vector (.integer sg ew) count) := by
      rcases hextB with ⟨extB, hextB⟩
      exact lookupType_extend ⟨extB, by rw [htyBkeep, hextB, htyA]⟩ hl
    simp only [GetOrCreateConstantZeroVector, hl']
    have hsynth' : synthComponents sg count s' = (comps, s') := by
      cases count with
      | zero =>
        simp only [synthComponents] at hcomp ⊢
        injection hcomp with hc1 hc2
        rw [← hc1]
      | succ n =>
        rcases hz : getIntZeroConstId s sg with ⟨z, sz⟩
        rw [synthComponents_succ hwf hz] at hcomp
        injection hcomp with hc1 hc2
        have hz' : getIntZeroConstId s' sg = (z, s') := by
          rcases getIntZeroConstId_cases hwf hz with
            ⟨hz0, hfound⟩ | ⟨hz0, hsz, hnone, hex⟩
          · have hfound' : findConstId s' (intZeroConst sg) = some z := by
              rcases hextC with ⟨extC, hextC⟩
              exact findConstId_extend
                ⟨extC, by rw [hextC, hcB, hc2]⟩ hfound
            simp only [getIntZeroConstId, hfound']
          · have hsA : sA = s := by rw [← hc2, hsz]
            have hsB : sB = s := by
              rcases getTypeInstruction_unchanged hti with h' | h'
              · rw [h', hsA]
              · rw [hsA] at h'
                exact absurd h' hex
            have hs' : s' = s := by
              rcases getCompositeConstId_unchanged hcompId with h' | h'
              · rw [h', hsB]
              · rw [hsB] at h'
                exact absurd h' hex
            rw [hs', hz, hz0, hsz]
        rw [synthComponents_succ hwf' hz', hc1]
    simp only [hsynth']
    have hfoundT : findTypeId s' (Ty.vector (.integer sg ew) count)
        = some (vt + 1) := by
      rw [findTypeId_eq_of_types htyBkeep]
      exact getTypeInstruction_found hwfA hti (by simp)
    have hti' : getTypeInstruction s' (Ty.vector (.integer sg ew) count)
        = (vt + 1, s') := by
      simp only [getTypeInstruction, hfoundT]
    simp only [hti']
    have hlook' : lookupType s' (vt + 1)
        = some (Ty.vector (.integer sg ew) count) := by
      rw [lookupType_eq_of_types htyBkeep]
      exact hlookB
    rw [hlook']
    have hfoundC : findConstId s'
        ⟨Ty.vector (.integer sg ew) count, .composite comps⟩ = some cid :=
      getCompositeConstId_found hwfB hcompId hcid
    simp only [getCompositeConstId, hfoundC]
  · intro cid s' sg ew count h hcid hl hcount
    obtain ⟨sg', ew', count', comps, sA, vt, sB, hl', hcomp, hti, hlookB,
      hcompId, hwf', hres, hrepl⟩ :=
      GetOrCreateConstantZeroVector_spec hwf h hcid
    rw [hl] at hl'
    simp only [Option.some.injEq, Ty.vector.injEq, Ty.integer.injEq] at hl'
    obtain ⟨⟨hsg, hew⟩, hcnt⟩ := hl'
    subst hsg
    subst hew
    subst hcnt
    rw [hres, hrepl hcount]

/-!
## Failure handling (C4, C5)
-/

/-- A state with no type table entry for the shift's result type, but a
declared integer constant 3 at id 3 for the shift amount. -/
def exBadTypeSt : St := ⟨[], [(3, ⟨.integer true 32, .intVal 3⟩)], 10, 100⟩

/-- A module with one function whose single shift has an unresolvable
result type id 99 and the constant shift amount 3. -/
def exBadTypeModule : SpvModule :=
  ⟨[⟨false, [[⟨.shiftLeftLogical, 99, 5, [4, 3]⟩]]⟩], exBadTypeSt⟩

/-- C4 counterexample: a synthesizer type-resolution failure occurring
before any identifier allocation (the allocator still at its initial
position on return) does make `Process` return the failed outcome, so
the claim that it cannot is false on the code. -/
theorem synthFailure_before_alloc_counterexample :
    (Process exBadTypeModule).status = Status.failure ∧
      (Process exBadTypeModule).module.st.nextId = exBadTypeSt.nextId ∧
      GetOrCreateConstantZero exBadTypeSt 99 = (0, exBadTypeSt) := by
  decide

/-- C4 (amended): a type-resolution failure in the candidate matcher —
the shift-amount operand not resolving to a declared constant of a
supported type — is recovered locally, the candidate passed over with
no state change; but a type-resolution failure inside the zero-constant
synthesizer is surfaced to the overall pass as a failure immediately,
whether or not any identifier allocation has occurred. -/
theorem typeResolution_failure_handling :
    (∀ (p : PState) (inst : Instruction), matchesShift p.st inst = false →
      processInst p inst = ([inst], p, false)) ∧
    (∀ (p : PState) (inst : Instruction) (c : SpvConst) (st1 : St),
      inst.opcode = Op.shiftLeftLogical →
      findDeclaredConstant p.st (inst.getSingleWordInOperand 1) = some c →
      (constIsScalarInt c || constIsIntVector c) = true →
      (if constIsScalarInt c then GetOrCreateConstantZero p.st inst.typeId
        else GetOrCreateConstantZeroVector p.st inst.typeId) = (0, st1) →
      processInst p inst = ([inst], { p with st := st1 }, true)) :=
  ⟨fun _ _ h => processInst_skip h,
    fun _ _ _ _ hop hc hcl hs => processInst_synth_fail hop hc hcl hs⟩

/-- Closed instantiation of the amended C4 theorem: on the concrete
bad-result-type module the synthesizer branch applies and the scan step
reports failure with the candidate left in place. -/
theorem typeResolution_failure_handling_witness :
    processInst ⟨exBadTypeSt, 0, 0, false⟩
        ⟨.shiftLeftLogical, 99, 5, [4, 3]⟩ =
      ([⟨.shiftLeftLogical, 99, 5, [4, 3]⟩],
        ⟨exBadTypeSt, 0, 0, false⟩, true) :=
  typeResolution_failure_handling.2 ⟨exBadTypeSt, 0, 0, false⟩
    ⟨.shiftLeftLogical, 99, 5, [4, 3]⟩ ⟨.integer true 32, .intVal 3⟩
    exBadTypeSt rfl (by decide) (by decide) (by decide)

/-- Scanning a concatenation of block lists aborts where the first part
aborts, the remainder left in place. -/
theorem processBlocks_append (p : PState)
    (l₁ l₂ : List (List Instruction)) :
    processBlocks p (l₁ ++ l₂) =
      (let r := processBlocks p l₁
       if r.2.2 then (r.1 ++ l₂, r.2.1, true)
       else
         let rr := processBlocks r.2.1 l₂
         (r.1 ++ rr.1, rr.2.1, rr.2.2)) := by
  induction l₁ generalizing p with
  | nil => simp [processBlocks]
  | cons b rest ih =>
    simp only [List.cons_append, processBlocks]
    by_cases hf : (processBlock p b).2.2
    · simp [hf]
    · simp only [hf, if_false, Bool.false_eq_true]
      have hx : rest.append l₂ = rest ++ l₂ := rfl
      rw [hx, ih]
      by_cases hf2 : (processBlocks (processBlock p b).2.1 rest).2.2 <;>
        simp [hf2, List.append_assoc]

/-- Scanning a concatenation of function lists aborts where the first
part aborts, the remainder left in place. -/
theorem processFunctions_append (p : PState) (l₁ l₂ : List SpvFunction) :
    processFunctions p (l₁ ++ l₂) =
      (let r := processFunctions p l₁
       if r.2.2 then (r.1 ++ l₂, r.2.1, true)
       else
         let rr := processFunctions r.2.1 l₂
         (r.1 ++ rr.1, rr.2.1, rr.2.2)) := by
  induction l₁ generalizing p with
  | nil => simp [processFunctions]
  | cons fn rest ih =>
    simp only [List.cons_append, processFunctions]
    by_cases hf : (processFunction p fn).2.2
    · simp [hf]
    · simp only [hf, if_false, Bool.false_eq_true]
      have hx : rest.append l₂ = rest ++ l₂ := rfl
      rw [hx, ih]
      by_cases hf2 : (processFunctions (processFunction p fn).2.1 rest).2.2 <;>
        simp [hf2, List.append_assoc]

/-- C5: `Process` has exactly the three terminal outcomes; a scan step
aborts precisely when the zero-constant synthesis returns the invalid
identifier or, synthesis having succeeded, the fresh-identifier
allocation returns the invalid identifier; and once a prefix of the
scan has aborted, the remaining instructions and functions are not
scanned — they are left in place verbatim and do not change the
result. -/
theorem process_three_outcomes :
    (∀ m : SpvModule, (Process m).status = Status.failure ∨
      (Process m).status = Status.successWithChange ∨
      (Process m).status = Status.successWithoutChange) ∧
    (∀ (p : PState) (inst : Instruction),
      (processInst p inst).2.2 = true ↔
        ∃ c, inst.opcode = Op.shiftLeftLogical ∧
          findDeclaredConstant p.st (inst.getSingleWordInOperand 1) = some c ∧
          (constIsScalarInt c || constIsIntVector c) = true ∧
          (((if constIsScalarInt c
              then GetOrCreateConstantZero p.st inst.typeId
              else GetOrCreateConstantZeroVector p.st inst.typeId).1 = 0) ∨
            ((if constIsScalarInt c
              then GetOrCreateConstantZero p.st inst.typeId
              else GetOrCreateConstantZeroVector p.st inst.typeId).1 ≠ 0 ∧
              (takeNextId (if constIsScalarInt c
                then GetOrCreateConstantZero p.st inst.typeId
                else GetOrCreateConstantZeroVector p.st inst.typeId).2).1
                  = 0))) ∧
    (∀ (p p₁ : PState) (l₁ l₂ out : List Instruction),
      processBlock p l₁ = (out, p₁, true) →
      processBlock p (l₁ ++ l₂) = (out ++ l₂, p₁, true)) ∧
    (∀ (p p₁ : PState) (l₁ l₂ out : List SpvFunction),
      processFunctions p l₁ = (out, p₁, true) →
      processFunctions p (l₁ ++ l₂) = (out ++ l₂, p₁, true)) := by
  refine ⟨?_, ?_, ?_, ?_⟩
  · intro m
    rcases h : processFunctions ⟨m.st, 0, 0, false⟩ m.functions
      with ⟨fns, pf, f⟩
    cases f with
    | true => left; simp [Process, h]
    | false =>
      cases hm : pf.modified with
      | true => right; left; simp [Process, h, hm]
      | false => right; right; simp [Process, h, hm]
  · intro p inst
    constructor
    · intro hfail
      by_cases hop : inst.opcode = Op.shiftLeftLogical
      · cases hc : findDeclaredConstant p.st (inst.getSingleWordInOperand 1)
          with
        | none => rw [processInst_no_const hop hc] at hfail; simp at hfail
        | some c =>
          by_cases hclass : (constIsScalarInt c || constIsIntVector c) = true
          · refine ⟨c, hop, rfl, hclass, ?_⟩
            rcases hsynth : (if constIsScalarInt c then
                GetOrCreateConstantZero p.st inst.typeId
              else GetOrCreateConstantZeroVector p.st inst.typeId)
              with ⟨z, st1⟩
            by_cases hz : z = 0
            · left
              exact hz
            · right
              refine ⟨hz, ?_⟩
              show (takeNextId st1).1 = 0
              rcases halloc : takeNextId st1 with ⟨t, st2⟩
              by_cases ht : t = 0
              · exact ht
              · rw [processInst_rewrite hop hc hclass hsynth hz halloc ht]
                  at hfail
                simp at hfail
          · simp only [Bool.or_eq_true, not_or, Bool.not_eq_true] at hclass
            rw [processInst_bad_class hop hc hclass.1 hclass.2] at hfail
            simp at hfail
      · rw [processInst_not_shift hop] at hfail
        simp at hfail
    · rintro ⟨c, hop, hc, hclass, hcause⟩
      rcases hsynth : (if constIsScalarInt c then
          GetOrCreateConstantZero p.st inst.typeId
        else GetOrCreateConstantZeroVector p.st inst.typeId) with ⟨z, st1⟩
      rcases hcause with hz | ⟨hz, hta⟩
      · rw [hsynth] at hz
        have hz' : z = 0 := hz
        subst hz'
        rw [processInst_synth_fail hop hc hclass hsynth]
      · rw [hsynth] at hz hta
        have hz' : z ≠ 0 := hz
        have hta' : (takeNextId st1).1 = 0 := hta
        rcases halloc : takeNextId st1 with ⟨t, st2⟩
        rw [halloc] at hta'
        have ht' : t = 0 := hta'
        subst ht'
        rw [processInst_alloc_fail hop hc hclass hsynth hz' halloc]
  · intro p p₁ l₁ l₂ out h
    rw [processBlock_append]
    simp [h]
  · intro p p₁ l₁ l₂ out h
    rw [processFunctions_append]
    simp [h]

/-- Closed instantiation of the C5 theorem: its step-level failure
characterization applied to the concrete bad-result-type candidate. -/
theorem process_three_outcomes_witness :
    ∃ c, (⟨.shiftLeftLogical, 99, 5, [4, 3]⟩ : Instruction).opcode
        = Op.shiftLeftLogical ∧
      findDeclaredConstant exBadTypeSt
        ((⟨.shiftLeftLogical, 99, 5, [4, 3]⟩ : Instruction).getSingleWordInOperand 1)
        = some c ∧
      (constIsScalarInt c || constIsIntVector c) = true ∧
      (((if constIsScalarInt c
          then GetOrCreateConstantZero exBadTypeSt 99
          else GetOrCreateConstantZeroVector exBadTypeSt 99).1 = 0) ∨
        ((if constIsScalarInt c
          then GetOrCreateConstantZero exBadTypeSt 99
          else GetOrCreateConstantZeroVector exBadTypeSt 99).1 ≠ 0 ∧
          (takeNextId (if constIsScalarInt c
            then GetOrCreateConstantZero exBadTypeSt 99
            else GetOrCreateConstantZeroVector exBadTypeSt 99).2).1 = 0)) :=
  (process_three_outcomes.2.1 ⟨exBadTypeSt, 0, 0, false⟩
    ⟨.shiftLeftLogical, 99, 5, [4, 3]⟩).mp (by decide)

/-!
## Counting rewrites (C8)

A specification-level derivation relating a scanned instruction list to
its rewritten form, with two indices literally counting the
scalar-classified and vector-classified rewrite steps performed.
-/

inductive BlockRewrites :
    St → List Instruction → List Instruction → Nat → Nat → St → Prop where
  | nil (s : St) : BlockRewrites s [] [] 0 0 s
  | keep {s : St} {inst : Instruction} {rest out : List Instruction}
      {ns nv : Nat} {sEnd : St} :
      matchesShift s inst = false →
      BlockRewrites s rest out ns nv sEnd →
      BlockRewrites s (inst :: rest) (inst :: out) ns nv sEnd
  | rewriteScalar {s : St} {inst : Instruction} {rest out : List Instruction}
      {ns nv : Nat} {sEnd : St} {c : SpvConst} {z t : Nat} {st1 st2 : St} :
      inst.opcode = Op.shiftLeftLogical →
      findDeclaredConstant s (inst.getSingleWordInOperand 1) = some c →
      constIsScalarInt c = true →
      GetOrCreateConstantZero s inst.typeId = (z, st1) → z ≠ 0 →
      takeNextId st1 = (t, st2) → t ≠ 0 →
      BlockRewrites st2 rest out ns nv sEnd →
      BlockRewrites s (inst :: rest)
        ({ inst with resultId := t } ::
          ⟨Op.bitFieldInsert, inst.typeId, inst.resultId, [t, z, z, z]⟩
            :: out)
        (ns + 1) nv sEnd
  | rewriteVector {s : St} {inst : Instruction} {rest out : List Instruction}
      {ns nv : Nat} {sEnd : St} {c : SpvConst} {z t : Nat} {st1 st2 : St} :
      inst.opcode = Op.shiftLeftLogical →
      findDeclaredConstant s (inst.getSingleWordInOperand 1) = some c →
      constIsScalarInt c = false → constIsIntVector c = true →
      GetOrCreateConstantZeroVector s inst.typeId = (z, st1) → z ≠ 0 →
      takeNextId st1 = (t, st2) → t ≠ 0 →
      BlockRewrites st2 rest out ns nv sEnd →
      BlockRewrites s (inst :: rest)
        ({ inst with resultId := t } ::
          ⟨Op.bitFieldInsert, inst.typeId, inst.resultId, [t, z, z, z]⟩
            :: out)
        ns (nv + 1) sEnd

inductive BlocksRewrites :
    St → List (List Instruction) → List (List Instruction) → Nat → Nat →
      St → Prop where
  | nil (s : St) : BlocksRewrites s [] [] 0 0 s
  | cons {s s₁ sEnd : St} {b bOut : List Instruction}
      {rest restOut : List (List Instruction)} {ns nv ms mv : Nat} :
      BlockRewrites s b bOut ns nv s₁ →
      BlocksRewrites s₁ rest restOut ms mv sEnd →
      BlocksRewrites s (b :: rest) (bOut :: restOut) (ns + ms) (nv + mv) sEnd

inductive FunctionsRewrites :
    St → List SpvFunction → List SpvFunction → Nat → Nat → St → Prop where
  | nil (s : St) : FunctionsRewrites s [] [] 0 0 s
  | decl {s sEnd : St} {fn : SpvFunction} {rest restOut : List SpvFunction}
      {ns nv : Nat} :
      fn.isDeclaration = true →
      FunctionsRewrites s rest restOut ns nv sEnd →
      FunctionsRewrites s (fn :: rest) (fn :: restOut) ns nv sEnd
  | body {s s₁ sEnd : St} {fn : SpvFunction}
      {blocksOut : List (List Instruction)} {rest restOut : List SpvFunction}
      {ns nv ms mv : Nat} :
      fn.isDeclaration = false →
      BlocksRewrites s fn.blocks blocksOut ns nv s₁ →
      FunctionsRewrites s₁ rest restOut ms mv sEnd →
      FunctionsRewrites s (fn :: rest)
        ({ fn with blocks := blocksOut } :: restOut) (ns + ms) (nv + mv) sEnd

theorem processBlock_rewrites :
    ∀ (l : List Instruction) (p : PState) (out : List Instruction)
      (p' : PState),
      processBlock p l = (out, p', false) →
      ∃ ns nv, p'.scalarMods = p.scalarMods + ns ∧
        p'.vectorMods = p.vectorMods + nv ∧
        BlockRewrites p.st l out ns nv p'.st := by
  intro l
  induction l with
  | nil =>
    intro p out p' h
    simp only [processBlock] at h
    injection h with h1 h2
    injection h2 with h2 h3
    subst h1
    subst h2
    exact ⟨0, 0, rfl, rfl, BlockRewrites.nil p.st⟩
  | cons inst rest ih =>
    intro p out p' h
    by_cases hm : matchesShift p.st inst = true
    · have hop : inst.opcode = Op.shiftLeftLogical := by
        by_contra hne
        simp [matchesShift, hne] at hm
      cases hc : findDeclaredConstant p.st (inst.getSingleWordInOperand 1)
        with
      | none => simp [matchesShift, hop, hc] at hm
      | some c =>
        have hclass : (constIsScalarInt c || constIsIntVector c) = true := by
          simpa [matchesShift, hop, hc] using hm
        rcases hsynth : (if constIsScalarInt c then
            GetOrCreateConstantZero p.st inst.typeId
          else GetOrCreateConstantZeroVector p.st inst.typeId)
          with ⟨z, st1⟩
        by_cases hz : z = 0
        · subst hz
          rw [show processBlock p (inst :: rest) =
              (let r := processInst p inst
               if r.2.2 then (r.1 ++ rest, r.2.1, true)
               else
                 let rr := processBlock r.2.1 rest
                 (r.1 ++ rr.1, rr.2.1, rr.2.2)) from rfl,
            processInst_synth_fail hop hc hclass hsynth] at h
          simp at h
        · rcases halloc : takeNextId st1 with ⟨t, st2⟩
          by_cases ht : t = 0
          · subst ht
            rw [show processBlock p (inst :: rest) =
                (let r := processInst p inst
                 if r.2.2 then (r.1 ++ rest, r.2.1, true)
                 else
                   let rr := processBlock r.2.1 rest
                   (r.1 ++ rr.1, rr.2.1, rr.2.2)) from rfl,
              processInst_alloc_fail hop hc hclass hsynth hz halloc] at h
            simp at h
          · rw [show processBlock p (inst :: rest) =
                (let r := processInst p inst
                 if r.2.2 then (r.1 ++ rest, r.2.1, true)
                 else
                   let rr := processBlock r.2.1 rest
                   (r.1 ++ rr.1, rr.2.1, rr.2.2)) from rfl,
              processInst_rewrite hop hc hclass hsynth hz halloc ht] at h
            simp only [Bool.false_eq_true, if_false] at h
            rcases hrest : processBlock
                ⟨st2,
                  if constIsScalarInt c then p.scalarMods + 1
                    else p.scalarMods,
                  if constIsScalarInt c then p.vectorMods
                    else p.vectorMods + 1,
                  true⟩ rest with ⟨restOut, pR, fR⟩
            rw [hrest] at h
            injection h with h1 h2
            injection h2 with h2 h3
            subst h1
            subst h2
            obtain ⟨ns, nv, hns, hnv, hrel⟩ := ih _ _ _ (by rw [hrest, ← h3])
            cases hs : constIsScalarInt c with
            | true =>
              rw [hs] at hsynth
              simp only [if_true] at hsynth
              refine ⟨ns + 1, nv, ?_, ?_, ?_⟩
              · rw [hns]
                simp [hs]
                omega
              · rw [hnv]
                simp [hs]
              · exact BlockRewrites.rewriteScalar hop hc hs hsynth hz
                  halloc ht (by simpa using hrel)
            | false =>
              rw [hs] at hsynth
              simp only [Bool.false_eq_true, if_false] at hsynth
              have hv : constIsIntVector c = true := by
                rcases Bool.or_eq_true_iff.mp hclass with h' | h'
                · exact absurd h' (by simp [hs])
                · exact h'
              refine ⟨ns, nv + 1, ?_, ?_, ?_⟩
              · rw [hns]
                simp [hs]
              · rw [hnv]
                simp [hs]
                omega
              · exact BlockRewrites.rewriteVector hop hc hs hv hsynth hz
                  halloc ht (by simpa using hrel)
    · have hm' : matchesShift p.st inst = false := by
        simpa using hm
      rw [show processBlock p (inst :: rest) =
          (let r := processInst p inst
           if r.2.2 then (r.1 ++ rest, r.2.1, true)
           else
             let rr := processBlock r.2.1 rest
             (r.1 ++ rr.1, rr.2.1, rr.2.2)) from rfl,
        processInst_skip hm'] at h
      simp only [Bool.false_eq_true, if_false] at h
      rcases hrest : processBlock p rest with ⟨restOut, pR, fR⟩
      rw [hrest] at h
      injection h with h1 h2
      injection h2 with h2 h3
      subst h1
      subst h2
      obtain ⟨ns, nv, hns, hnv, hrel⟩ := ih _ _ _ (by rw [hrest, ← h3])
      exact ⟨ns, nv, hns, hnv, BlockRewrites.keep hm' hrel⟩

theorem processBlocks_rewrites :
    ∀ (l : List (List Instruction)) (p : PState)
      (out : List (List Instruction)) (p' : PState),
      processBlocks p l = (out, p', false) →
      ∃ ns nv, p'.scalarMods = p.scalarMods + ns ∧
        p'.vectorMods = p.vectorMods + nv ∧
        BlocksRewrites p.st l out ns nv p'.st := by
  intro l
  induction l with
  | nil =>
    intro p out p' h
    simp only [processBlocks] at h
    injection h with h1 h2
    injection h2 with h2 h3
    subst h1
    subst h2
    exact ⟨0, 0, rfl, rfl, BlocksRewrites.nil p.st⟩
  | cons b rest ih =>
    intro p out p' h
    rcases hb : processBlock p b with ⟨bOut, pB, fB⟩
    rw [show processBlocks p (b :: rest) =
        (let r := processBlock p b
         if r.2.2 then (r.1 :: rest, r.2.1, true)
         else
           let rr := processBlocks r.2.1 rest
           (r.1 :: rr.1, rr.2.1, rr.2.2)) from rfl, hb] at h
    cases fB with
    | true => simp at h
    | false =>
      simp only [Bool.false_eq_true, if_false] at h
      rcases hrest : processBlocks pB rest with ⟨restOut, pR, fR⟩
      simp only [hrest] at h
      injection h with h1 h2
      injection h2 with h2 h3
      subst h1
      subst h2
      obtain ⟨ns, nv, hns, hnv, hrelB⟩ := processBlock_rewrites b p bOut pB hb
      obtain ⟨ms, mv, hms, hmv, hrelR⟩ := ih pB restOut pR (by rw [hrest, ← h3])
      exact ⟨ns + ms, nv + mv, by omega, by omega,
        BlocksRewrites.cons hrelB hrelR⟩

theorem processFunctions_rewrites :
    ∀ (l : List SpvFunction) (p : PState) (out : List SpvFunction)
      (p' : PState),
      processFunctions p l = (out, p', false) →
      ∃ ns nv, p'.scalarMods = p.scalarMods + ns ∧
        p'.vectorMods = p.vectorMods + nv ∧
        FunctionsRewrites p.st l out ns nv p'.st := by
  intro l
  induction l with
  | nil =>
    intro p out p' h
    simp only [processFunctions] at h
    injection h with h1 h2
    injection h2 with h2 h3
    subst h1
    subst h2
    exact ⟨0, 0, rfl, rfl, FunctionsRewrites.nil p.st⟩
  | cons fn rest ih =>
    intro p out p' h
    cases hd : fn.isDeclaration with
    | true =>
      rw [show processFunctions p (fn :: rest) =
          (let r := processFunction p fn
           if r.2.2 then (r.1 :: rest, r.2.1, true)
           else
             let rr := processFunctions r.2.1 rest
             (r.1 :: rr.1, rr.2.1, rr.2.2)) from rfl,
        show processFunction p fn = (fn, p, false) from by
          simp [processFunction, hd]] at h
      simp only [Bool.false_eq_true, if_false] at h
      rcases hrest : processFunctions p rest with ⟨restOut, pR, fR⟩
      simp only [hrest] at h
      injection h with h1 h2
      injection h2 with h2 h3
      subst h1
      subst h2
      obtain ⟨ns, nv, hns, hnv, hrel⟩ := ih p restOut pR (by rw [hrest, ← h3])
      exact ⟨ns, nv, hns, hnv, FunctionsRewrites.decl hd hrel⟩
    | false =>
      rcases hbl : processBlocks p fn.blocks with ⟨blocksOut, pB, fB⟩
      rw [show processFunctions p (fn :: rest) =
          (let r := processFunction p fn
           if r.2.2 then (r.1 :: rest, r.2.1, true)
           else
             let rr := processFunctions r.2.1 rest
             (r.1 :: rr.1, rr.2.1, rr.2.2)) from rfl,
        show processFunction p fn
            = ({ fn with blocks := blocksOut }, pB, fB) from by
          simp [processFunction, hd, hbl]] at h
      cases fB with
      | true => simp at h
      | false =>
        simp only [Bool.false_eq_true, if_false] at h
        rcases hrest : processFunctions pB rest with ⟨restOut, pR, fR⟩
        simp only [hrest] at h
        injection h with h1 h2
        injection h2 with h2 h3
        subst h1
        subst h2
        obtain ⟨ns, nv, hns, hnv, hrelB⟩ :=
          processBlocks_rewrites fn.blocks p blocksOut pB hbl
        obtain ⟨ms, mv, hms, hmv, hrelR⟩ := ih pB restOut pR (by rw [hrest, ← h3])
        exact ⟨ns + ms, nv + mv, by omega, by omega,
          FunctionsRewrites.body hd hrelB hrelR⟩

/-- C8: when `Process` reports the module-changed outcome, the scalar
and vector counts in its summary are exactly the number of
scalar-classified and vector-classified rewrite steps in the derivation
relating the input module to the output module. -/
theorem process_reports_rewrite_counts (m : SpvModule)
    (h : (Process m).status = Status.successWithChange) :
    FunctionsRewrites m.st m.functions (Process m).module.functions
      (Process m).scalarModifications (Process m).vectorModifications
      (Process m).module.st := by
  rcases hpf : processFunctions ⟨m.st, 0, 0, false⟩ m.functions
    with ⟨fns, pf, f⟩
  cases f with
  | true => simp [Process, hpf] at h
  | false =>
    obtain ⟨ns, nv, hns, hnv, hrel⟩ :=
      processFunctions_rewrites m.functions _ _ _ hpf
    simp only [Process, hpf]
    have hns' : ns = pf.scalarMods := by simpa using hns.symm
    have hnv' : nv = pf.vectorMods := by simpa using hnv.symm
    subst hns'
    subst hnv'
    exact hrel

/-- A one-candidate module: a 32-bit unsigned shift by the declared
constant 3, in a single block of a single function. -/
def exSt : St :=
  ⟨[(1, .integer false 32)], [(3, ⟨.integer false 32, .intVal 3⟩)], 10, 100⟩

def exShift : Instruction := ⟨.shiftLeftLogical, 1, 5, [4, 3]⟩

def exModule : SpvModule := ⟨[⟨false, [[exShift]]⟩], exSt⟩

/-- Closed instantiation of the C8 theorem on the one-candidate module
(whose run is changed with scalar count 1, vector count 0). -/
theorem process_reports_rewrite_counts_witness :
    FunctionsRewrites exModule.st exModule.functions
      (Process exModule).module.functions
      (Process exModule).scalarModifications
      (Process exModule).vectorModifications
      (Process exModule).module.st :=
  process_reports_rewrite_counts exModule (by decide)

/-!
## Non-idempotence (C9)
-/

theorem findTypeId_extend {s s' : St}
    (hext : ∃ ext, s'.types = s.types ++ ext)
    {t : Ty} {id : Nat} (h : findTypeId s t = some id) :
    findTypeId s' t = some id := by
  rcases hext with ⟨ext, hext⟩
  unfold findTypeId at h ⊢
  rw [hext]
  exact find_map_extend h

theorem exists_append_trans {α : Type} {l1 l2 l3 : List α}
    (h1 : ∃ e, l2 = l1 ++ e) (h2 : ∃ e, l3 = l2 ++ e) :
    ∃ e, l3 = l1 ++ e := by
  rcases h1 with ⟨e1, rfl⟩
  rcases h2 with ⟨e2, rfl⟩
  exact ⟨e1 ++ e2, by rw [List.append_assoc]⟩

theorem exists_append_of_eq {α : Type} {l1 l2 : List α} (h : l2 = l1) :
    ∃ e, l2 = l1 ++ e :=
  ⟨[], by simp [h]⟩

/-- C9: a candidate the pass has just rewritten still satisfies the
matching criterion afterwards — the renamed shift keeps its opcode and
its constant shift-amount operand, and the registries only grow — so a
second run over the output (any state extending the post-rewrite one,
with the allocator live) matches the same renamed shift again and
inserts one more guard after it, reusing the same zero constant: the
pass is not idempotent. -/
theorem process_not_idempotent
    {p : PState} {inst : Instruction} {c : SpvConst} {z t : Nat}
    {st1 st2 : St}
    (hwf : StWF p.st)
    (hop : inst.opcode = Op.shiftLeftLogical)
    (hc : findDeclaredConstant p.st (inst.getSingleWordInOperand 1) = some c)
    (hclass : (constIsScalarInt c || constIsIntVector c) = true)
    (hsynth : (if constIsScalarInt c
      then GetOrCreateConstantZero p.st inst.typeId
      else GetOrCreateConstantZeroVector p.st inst.typeId) = (z, st1))
    (hz : z ≠ 0)
    (halloc : takeNextId st1 = (t, st2)) (ht : t ≠ 0)
    (q : PState)
    (hqc : ∃ e, q.st.consts = st2.consts ++ e)
    (hqt : ∃ e, q.st.types = st2.types ++ e)
    (hqlive : q.st.nextId < q.st.idBound) (hqpos : 0 < q.st.nextId) :
    matchesShift q.st { inst with resultId := t } = true ∧
      ∃ q', processInst q { inst with resultId := t } =
        ([{ inst with resultId := q.st.nextId },
          ⟨Op.bitFieldInsert, inst.typeId, t, [q.st.nextId, z, z, z]⟩],
          q', false) := by
  have hst2c : st2.consts = st1.consts := by
    rcases takeNextId_cases halloc with ⟨-, -, rfl⟩ | ⟨-, -, rfl⟩ <;> rfl
  have hst2t : st2.types = st1.types := by
    rcases takeNextId_cases halloc with ⟨-, -, rfl⟩ | ⟨-, -, rfl⟩ <;> rfl
  have hqc1 : ∃ e, q.st.consts = st1.consts ++ e := by
    rcases hqc with ⟨e, he⟩
    exact ⟨e, by rw [he, hst2c]⟩
  have hqt1 : ∃ e, q.st.types = st1.types ++ e := by
    rcases hqt with ⟨e, he⟩
    exact ⟨e, by rw [he, hst2t]⟩
  -- the synthesized zero constant is reusable at q, and the original
  -- typing facts extend to q
  have hmain : findDeclaredConstant q.st (inst.getSingleWordInOperand 1)
        = some c ∧
      (if constIsScalarInt c
        then GetOrCreateConstantZero q.st inst.typeId
        else GetOrCreateConstantZeroVector q.st inst.typeId)
        = (z, q.st) := by
    cases hs : constIsScalarInt c with
    | true =>
      rw [hs] at hsynth
      simp only [if_true] at hsynth
      obtain ⟨sg, w, hl, heq, hwf1, hres⟩ :=
        GetOrCreateConstantZero_spec hwf hsynth hz
      obtain ⟨-, htyeq, -, hcext, -⟩ := getIntZeroConstId_spec hwf heq
      have hfound1 : findConstId st1 (intZeroConst sg) = some z := by
        rcases getIntZeroConstId_cases hwf heq with ⟨-, hf⟩ | ⟨hz0, -, -, -⟩
        · exact hf
        · exact absurd hz0 hz
      have hfoundq : findConstId q.st (intZeroConst sg) = some z :=
        findConstId_extend hqc1 hfound1
      have hlq : lookupType q.st inst.typeId = some (.integer sg w) := by
        refine lookupType_extend ?_ hl
        exact exists_append_trans (exists_append_of_eq htyeq) hqt1
      have hconstq : findDeclaredConstant q.st
          (inst.getSingleWordInOperand 1) = some c := by
        refine findDeclaredConstant_extend ?_ hc
        exact exists_append_trans hcext hqc1
      refine ⟨hconstq, ?_⟩
      simp [GetOrCreateConstantZero, hlq, getIntZeroConstId, hfoundq]
    | false =>
      rw [hs] at hsynth
      simp only [Bool.false_eq_true, if_false] at hsynth
      obtain ⟨sg, ew, count, comps, sA, vt, sB, hl, hcomp, hti, hlookB,
        hcompId, hwf1, hres, hrepl⟩ :=
        GetOrCreateConstantZeroVector_spec hwf hsynth hz
      obtain ⟨hwfA, htyA, -, hcextA⟩ := synthComponents_wf hwf hcomp
      obtain ⟨hwfB, hcB, -, htextB, -⟩ := getTypeInstruction_spec hwfA hti
      obtain ⟨-, htyC, -, hcextC, -⟩ := getCompositeConstId_spec hwfB hcompId
      -- consts of q extend those of every intermediate state
      have hqcB : ∃ e, q.st.consts = sB.consts ++ e :=
        exists_append_trans hcextC hqc1
      have hqcA : ∃ e, q.st.consts = sA.consts ++ e := by
        rcases hqcB with ⟨e, he⟩
        exact ⟨e, by rw [he, hcB]⟩
      have hqcP : ∃ e, q.st.consts = p.st.consts ++ e :=
        exists_append_trans hcextA hqcA
      -- types of q extend those of every intermediate state
      have hqtB : ∃ e, q.st.types = sB.types ++ e := by
        rcases hqt1 with ⟨e, he⟩
        exact ⟨e, by rw [he, htyC]⟩
      have hqtP : ∃ e, q.st.types = p.st.types ++ e := by
        refine exists_append_trans ?_ hqtB
        rcases htextB with ⟨e, he⟩
        exact ⟨e, by rw [he, htyA]⟩
      have hconstq : findDeclaredConstant q.st
          (inst.getSingleWordInOperand 1) = some c :=
        findDeclaredConstant_extend hqcP hc
      have hlq : lookupType q.st inst.typeId
          = some (.vector (.integer sg ew) count) :=
        lookupType_extend hqtP hl
      refine ⟨hconstq, ?_⟩
      simp only [Bool.false_eq_true, if_false, GetOrCreateConstantZeroVector,
        hlq]
      -- components at q
      have hsynthq : synthComponents sg count q.st = (comps, q.st) := by
        cases count with
        | zero =>
          simp only [synthComponents] at hcomp ⊢
          injection hcomp with hc1 hc2
          rw [← hc1]
        | succ n =>
          rcases hzc : getIntZeroConstId p.st sg with ⟨zc, sA'⟩
          rw [synthComponents_succ hwf hzc] at hcomp
          injection hcomp with hc1 hc2
          have hzc0 : zc ≠ 0 := by
            intro hzc0
            subst hzc0
            rcases getIntZeroConstId_cases hwf hzc with ⟨hne, -⟩ |
              ⟨-, hsz, -, hex⟩
            · exact hne rfl
            · have hsA : sA = p.st := by rw [← hc2, hsz]
              have hsB : sB = p.st := by
                rcases getTypeInstruction_unchanged hti with h' | h'
                · rw [h', hsA]
                · rw [hsA] at h'
                  exact absurd h' hex
              have hst1 : st1 = p.st := by
                rcases getCompositeConstId_unchanged hcompId with h' | h'
                · rw [h', hsB]
                · rw [hsB] at h'
                  exact absurd h' hex
              rcases takeNextId_cases halloc with ⟨-, ht0, -⟩ | ⟨hlt, -, -⟩
              · exact ht ht0
              · rw [hst1] at hlt
                exact absurd hlt hex
          have hfzc : findConstId sA' (intZeroConst sg) = some zc := by
            rcases getIntZeroConstId_cases hwf hzc with ⟨-, hf⟩ | ⟨hz0, -, -, -⟩
            · exact hf
            · exact absurd hz0 hzc0
          have hfzq : findConstId q.st (intZeroConst sg) = some zc := by
            refine findConstId_extend ?_ hfzc
            rcases hqcA with ⟨e, he⟩
            exact ⟨e, by rw [he, hc2]⟩
          have hidem : getIntZeroConstId q.st sg = (zc, q.st) := by
            simp only [getIntZeroConstId, hfzq]
          rw [synthComponents_stable hidem (n + 1), hc1]
      simp only [hsynthq]
      -- vector type id at q
      have hftq : findTypeId q.st (Ty.vector (.integer sg ew) count)
          = some (vt + 1) :=
        findTypeId_extend hqtB (getTypeInstruction_found hwfA hti (by simp))
      have htiq : getTypeInstruction q.st (Ty.vector (.integer sg ew) count)
          = (vt + 1, q.st) := by
        simp only [getTypeInstruction, hftq]
      simp only [htiq]
      -- the aggregate constant at q
      have hlookq : lookupType q.st (vt + 1)
          = some (Ty.vector (.integer sg ew) count) :=
        lookupType_extend (by
          rcases hqt1 with ⟨e, he⟩
          exact ⟨e, by rw [he, htyC]⟩) hlookB
      rw [hlookq]
      have hfcq : findConstId q.st
          ⟨Ty.vector (.integer sg ew) count, .composite comps⟩ = some z :=
        findConstId_extend hqc1 (getCompositeConstId_found hwfB hcompId hz)
      simp only [getCompositeConstId, hfcq]
  obtain ⟨hconstq, hsynthq⟩ := hmain
  constructor
  · unfold matchesShift
    have hcq' : findDeclaredConstant q.st
        (({ inst with resultId := t } : Instruction).getSingleWordInOperand 1)
        = some c := hconstq
    rw [hcq']
    simp [hop, hclass]
  · have hallocq : takeNextId q.st
        = (q.st.nextId, { q.st with nextId := q.st.nextId + 1 }) := by
      unfold takeNextId
      rw [if_pos hqlive]
    exact ⟨_, processInst_rewrite (by simpa using hop)
      (by simpa using hconstq) hclass (by simpa using hsynthq) hz hallocq
      (Nat.ne_of_gt hqpos)⟩

/-- C10: when fresh-identifier allocation fails for a matched
candidate, `Process` returns the failed outcome with that candidate's
shift instruction still unmodified — result id not reassigned, no guard
inserted for it — while the zero constant already synthesized for it
still resolves in the final registries, and the rewrites committed for
earlier candidates of the same run (the processed prefix `preOut`)
remain in the module. -/
theorem allocFailure_partial_mutation
    {st0 : St} {p₁ : PState} {pre preOut post : List Instruction}
    {inst : Instruction} {c : SpvConst} {z : Nat} {st1 st2 : St}
    (hwf1 : StWF p₁.st)
    (hpre : processBlock ⟨st0, 0, 0, false⟩ pre = (preOut, p₁, false))
    (hop : inst.opcode = Op.shiftLeftLogical)
    (hc : findDeclaredConstant p₁.st (inst.getSingleWordInOperand 1) = some c)
    (hclass : (constIsScalarInt c || constIsIntVector c) = true)
    (hsynth : (if constIsScalarInt c
      then GetOrCreateConstantZero p₁.st inst.typeId
      else GetOrCreateConstantZeroVector p₁.st inst.typeId) = (z, st1))
    (hz : z ≠ 0)
    (halloc : takeNextId st1 = (0, st2)) :
    Process ⟨[⟨false, [pre ++ inst :: post]⟩], st0⟩ =
      ⟨⟨[⟨false, [preOut ++ inst :: post]⟩], st2⟩, Status.failure,
        p₁.scalarMods, p₁.vectorMods⟩ ∧
      (∃ cz, findDeclaredConstant st2 z = some cz) := by
  have hwfst1 : StWF st1 ∧ ∃ cz, findDeclaredConstant st1 z = some cz := by
    cases hs : constIsScalarInt c with
    | true =>
      rw [hs] at hsynth
      simp only [if_true] at hsynth
      obtain ⟨sg, w, -, -, hwf', hres⟩ :=
        GetOrCreateConstantZero_spec hwf1 hsynth hz
      exact ⟨hwf', intZeroConst sg, hres⟩
    | false =>
      rw [hs] at hsynth
      simp only [Bool.false_eq_true, if_false] at hsynth
      obtain ⟨sg, ew, count, comps, -, -, -, -, -, -, -, -, hwf', hres, -⟩ :=
        GetOrCreateConstantZeroVector_spec hwf1 hsynth hz
      exact ⟨hwf', _, hres⟩
  have hst2 : st2 = st1 := by
    rcases takeNextId_cases halloc with ⟨-, -, rfl⟩ | ⟨-, h0, -⟩
    · rfl
    · exact absurd h0.symm (Ne.symm (Nat.ne_of_lt hwfst1.1.nextPos))
  have hstep := processInst_alloc_fail hop hc hclass hsynth hz halloc
  have hblock : processBlock ⟨st0, 0, 0, false⟩ (pre ++ inst :: post)
      = (preOut ++ inst :: post, { p₁ with st := st2 }, true) := by
    rw [processBlock_append]
    simp only [hpre]
    simp [processBlock, hstep]
  refine ⟨?_, hst2 ▸ hwfst1.2⟩
  simp [Process, processFunctions, processFunction, processBlocks, hblock]

/-!
## Concrete witnesses
-/

/-- The registries right after the zero constant (id 10) was created
for the one-candidate module. -/
def exStZ : St :=
  ⟨[(1, .integer false 32)],
    [(3, ⟨.integer false 32, .intVal 3⟩), (10, ⟨.integer false 32, .intVal 0⟩)],
    11, 100⟩

/-- The registries right after the fresh id 11 was also allocated. -/
def exStZ2 : St :=
  ⟨[(1, .integer false 32)],
    [(3, ⟨.integer false 32, .intVal 3⟩), (10, ⟨.integer false 32, .intVal 0⟩)],
    12, 100⟩

/-- An environment for evaluating the one-candidate rewrite: base value
2 at id 4, shift amount 3 at id 3, the zero constant at id 10. -/
def exEnv : Nat → Option Value := fun k =>
  if k = 4 then some (.scalar 2)
  else if k = 3 then some (.scalar 3)
  else if k = 10 then some (.scalar 0)
  else none

/-- Closed instantiation of the C1 theorem: at bit width 8, the
rewritten pair produced for the one-candidate module evaluates under
the original result id 5 to the same value as the original shift. -/
theorem shiftGuard_value_preservation_witness :
    (evalSeq 8 exEnv [⟨Op.shiftLeftLogical, 1, 11, [4, 3]⟩,
        ⟨Op.bitFieldInsert, 1, 5, [11, 10, 10, 10]⟩]).bind
        (fun e => e 5) =
      (evalSeq 8 exEnv [exShift]).bind (fun e => e 5) :=
  @shiftGuard_value_preservation 8 ⟨exSt, 0, 0, false⟩ ⟨exStZ2, 1, 0, true⟩
    exShift ⟨Op.shiftLeftLogical, 1, 11, [4, 3]⟩
    ⟨Op.bitFieldInsert, 1, 5, [11, 10, 10, 10]⟩ exEnv 4 3
    (.scalar 2) (.scalar 3) (.scalar 16)
    (by decide) rfl rfl rfl rfl rfl (by decide)

/-- Closed instantiation of the C2 theorem on the one-candidate module:
the shift is renamed to the fresh id 11 and followed by exactly one
guard under the original id 5 and type 1. -/
theorem process_targets_constant_shift_witness :
    ∃ postOut p₂ f,
      processBlock ⟨exSt, 0, 0, false⟩ ([] ++ exShift :: []) =
        (([] : List Instruction) ++ { exShift with resultId := 11 } ::
          ⟨Op.bitFieldInsert, exShift.typeId, exShift.resultId,
            [11, 10, 10, 10]⟩ :: postOut, p₂, f) ∧
        (11 : Nat) = exStZ.nextId :=
  @process_targets_constant_shift ⟨exSt, 0, 0, false⟩ ⟨exSt, 0, 0, false⟩
    [] [] [] exShift ⟨.integer false 32, .intVal 3⟩ 10 11 exStZ exStZ2
    rfl rfl (by decide) (by decide) (by decide) (by decide) (by decide)
    (by decide)

/-- Closed instantiation of the C6 theorem: a second scalar-zero
request on the 16-bit state returns the same id and state as the
first. -/
theorem zeroConstant_dedup_witness :
    GetOrCreateConstantZero (GetOrCreateConstantZero exWidthSt 1).2 1 =
      ((GetOrCreateConstantZero exWidthSt 1).1,
        (GetOrCreateConstantZero exWidthSt 1).2) :=
  (zeroConstant_dedup exWidthSt 1
      ⟨by decide, by decide, by decide, by decide, by decide, by decide,
        by decide⟩).1
    (GetOrCreateConstantZero exWidthSt 1).1
    (GetOrCreateConstantZero exWidthSt 1).2 rfl

/-- A shift-left whose shift-amount operand (id 7) resolves to no
declared constant. -/
def exShiftDyn : Instruction := ⟨.shiftLeftLogical, 1, 6, [4, 7]⟩

/-- Closed instantiation of the C7 theorem: the dynamic-amount shift is
passed through byte-for-byte unchanged with the state untouched. -/
theorem process_skips_nonconstant_shift_witness :
    processBlock ⟨exSt, 0, 0, false⟩ ([] ++ [exShiftDyn]) =
        (([] : List Instruction) ++ [exShiftDyn],
          ⟨exSt, 0, 0, false⟩, false) ∧
      ∃ postOut p₂ f,
        processBlock ⟨exSt, 0, 0, false⟩ ([] ++ exShiftDyn :: []) =
          (([] : List Instruction) ++ exShiftDyn :: postOut, p₂, f) :=
  @process_skips_nonconstant_shift ⟨exSt, 0, 0, false⟩ ⟨exSt, 0, 0, false⟩
    [] [] [] exShiftDyn rfl rfl (by decide)

/-- Closed instantiation of the C9 theorem: after the one-candidate
rewrite, the renamed shift (id 11) still matches, and reprocessing it
in the post-rewrite state inserts one more guard (fresh id 12), reusing
the zero constant 10. -/
theorem process_not_idempotent_witness :
    matchesShift exStZ2 { exShift with resultId := 11 } = true ∧
      ∃ q', processInst ⟨exStZ2, 1, 0, true⟩
          { exShift with resultId := 11 } =
        ([{ exShift with resultId := 12 },
          ⟨Op.bitFieldInsert, exShift.typeId, 11, [12, 10, 10, 10]⟩],
          q', false) :=
  @process_not_idempotent ⟨exSt, 0, 0, false⟩ exShift
    ⟨.integer false 32, .intVal 3⟩ 10 11 exStZ exStZ2
    ⟨by decide, by decide, by decide, by decide, by decide, by decide,
      by decide⟩
    rfl (by decide) (by decide) (by decide) (by decide) (by decide)
    (by decide) ⟨exStZ2, 1, 0, true⟩ ⟨[], by simp⟩ ⟨[], by simp⟩
    (by decide) (by decide)

/-- A state whose allocator is exhausted (`nextId = idBound`) but whose
zero constant is already registered at id 7. -/
def exTightSt : St :=
  ⟨[(1, .integer false 32)],
    [(3, ⟨.integer false 32, .intVal 3⟩), (7, ⟨.integer false 32, .intVal 0⟩)],
    11, 11⟩

/-- Closed instantiation of the C10 theorem: on the exhausted-allocator
module the zero constant is found without allocation, the fresh-id
allocation fails, and `Process` returns failure with the candidate
shift unmodified and the zero constant still registered. -/
theorem allocFailure_partial_mutation_witness :
    Process ⟨[⟨false, [[] ++ exShift :: []]⟩], exTightSt⟩ =
        ⟨⟨[⟨false, [[] ++ exShift :: []]⟩], exTightSt⟩, Status.failure,
          0, 0⟩ ∧
      (∃ cz, findDeclaredConstant exTightSt 7 = some cz) :=
  @allocFailure_partial_mutation exTightSt ⟨exTightSt, 0, 0, false⟩
    [] [] [] exShift ⟨.integer false 32, .intVal 3⟩ 7 exTightSt exTightSt
    ⟨by decide, by decide, by decide, by decide, by decide, by decide,
      by decide⟩
    rfl rfl (by decide) (by decide) (by decide) (by decide) (by decide)

end MaliBarrier
